import Mathlib

/-!
Verification of `publish.py` from the `natural-pdf-workshop` repository.

The script converts annotated Jupyter notebooks and markdown documents into a
static workshop site.  This file gives a shallow embedding of its data model
and operations:

* notebook cells and the exercise/answers cell transformation of
  `process_notebook` (publish.py lines 317-440);
* the kernelspec normalisation (lines 338-344);
* the table-of-contents generator `generate_toc_from_markdown` (lines 42-62);
* the archive builder `create_data_zip` (lines 442-468) together with a
  component-wise model of `glob` and `Path.relative_to`;
* the item and section ordering of `create_index` (lines 744-795);
* a run-level model of `main` (lines 876-947) covering exit behaviour and
  determinism of the produced outputs.

Python strings are `String`, JSON `null` is `Option.none`, machine integers do
not occur (cell ordering keys are unbounded Python ints, embedded as `Int`).
-/

namespace Publish

/-! ### Notebook cells (`process_notebook`, publish.py lines 317-440) -/

/-- A notebook cell as manipulated by `process_notebook`.  The cell's JSON
`metadata` object is split into its `tags` entry (absent = `[]`, matching the
falsiness test `cell.get('metadata', {}).get('tags')`) and the remaining
key/value pairs `metaExtra`.  `outputs` and `source` keep their JSON lists of
strings; `execution_count` is `null` or an integer. -/
structure Cell where
  cell_type : String
  tags : List String
  metaExtra : List (String × String)
  source : List String
  execution_count : Option Int
  outputs : List String
deriving DecidableEq, Repr

/-- The test on publish.py line 351:
`cell.get('metadata', {}).get('tags') and 'solution' in cell['metadata']['tags']`. -/
def isSolutionTagged (c : Cell) : Bool :=
  !c.tags.isEmpty && c.tags.contains "solution"

/-- The replacement cell of publish.py lines 353-359: an empty code cell with
empty metadata, no source, no execution count and no outputs. -/
def emptySolutionCell : Cell :=
  { cell_type := "code", tags := [], metaExtra := [], source := [],
    execution_count := none, outputs := [] }

/-- The per-cell action of the loop on publish.py lines 350-359: a
solution-tagged cell is replaced by `emptySolutionCell`, others are kept. -/
def replaceSolutionCell (c : Cell) : Cell :=
  if isSolutionTagged c then emptySolutionCell else c

/-- Index of the first cell with `cell_type == 'markdown'`, if any
(the loop of publish.py lines 370-373). -/
def firstMarkdownIdx : List Cell → Option Nat
  | [] => none
  | c :: cs =>
    if c.cell_type == "markdown" then some 0 else (firstMarkdownIdx cs).map (· + 1)

/-- The insertion position for the setup cell, publish.py lines 369-373:
one past the first markdown cell, or `0` when there is none. -/
def findInsertPos (cells : List Cell) : Nat :=
  match firstMarkdownIdx cells with
  | some i => i + 1
  | none => 0

/-- The two cell lists produced by one `process_notebook` call. -/
structure Variants where
  exercise : List Cell
  complete : List Cell
deriving DecidableEq, Repr

/-- Cell-level transformation of `process_notebook` (publish.py lines 346-399):
the exercise list replaces solution-tagged cells (lines 350-359); when data
files are declared the setup cell is inserted into both lists at the position
computed from the complete list (lines 361-376); when a slide file is
effective the slide-link cell is inserted at position 0 of both lists
(lines 388-399). -/
def processVariants (cells : List Cell) (hasDataFiles : Bool) (setupCell : Cell)
    (slideCell : Option Cell) : Variants :=
  let exerciseCells := cells.map replaceSolutionCell
  let completeCells := cells
  let insertPos := findInsertPos completeCells
  let completeCells' :=
    if hasDataFiles then completeCells.insertIdx insertPos setupCell else completeCells
  let exerciseCells' :=
    if hasDataFiles then exerciseCells.insertIdx insertPos setupCell else exerciseCells
  match slideCell with
  | some sc => ⟨sc :: exerciseCells', sc :: completeCells'⟩
  | none => ⟨exerciseCells', completeCells'⟩

/-- Index of an original cell `i` in either output list: shifted by one when a
setup cell is inserted at a position `≤ i`, and by one more when a slide cell
is prepended. -/
def outIdx (cells : List Cell) (hasDataFiles : Bool) (slideCell : Option Cell)
    (i : Nat) : Nat :=
  let i₁ := if hasDataFiles && decide (findInsertPos cells ≤ i) then i + 1 else i
  if slideCell.isSome then i₁ + 1 else i₁

/-! ### Helper lemmas about `List.insertIdx` and `getElem?` -/

theorem getElem?_insertIdx_of_lt {α : Type} (l : List α) (x : α) (n k : Nat) (h : k < n) :
    (l.insertIdx n x)[k]? = l[k]? := by
  induction n generalizing l k with
  | zero => omega
  | succ n ih =>
    cases l with
    | nil => rw [List.insertIdx_succ_nil]
    | cons a l =>
      rw [List.insertIdx_succ_cons]
      cases k with
      | zero => simp
      | succ k => simpa using ih l k (by omega)

theorem getElem?_insertIdx_self {α : Type} (l : List α) (x : α) (n : Nat)
    (hn : n ≤ l.length) : (l.insertIdx n x)[n]? = some x := by
  induction n generalizing l with
  | zero => rw [List.insertIdx_zero]; simp
  | succ n ih =>
    cases l with
    | nil => simp at hn
    | cons a l =>
      rw [List.insertIdx_succ_cons]
      simpa using ih l (by simpa using hn)

theorem getElem?_insertIdx_succ_of_le {α : Type} (l : List α) (x : α) (n k : Nat)
    (h : n ≤ k) (hn : n ≤ l.length) : (l.insertIdx n x)[k + 1]? = l[k]? := by
  induction n generalizing l k with
  | zero => rw [List.insertIdx_zero]; simp
  | succ n ih =>
    cases l with
    | nil => simp at hn
    | cons a l =>
      rw [List.insertIdx_succ_cons]
      cases k with
      | zero => omega
      | succ k =>
        rw [List.getElem?_cons_succ, List.getElem?_cons_succ]
        exact ih l k (by omega) (by simpa using hn)

theorem findInsertPos_le (cells : List Cell) : findInsertPos cells ≤ cells.length := by
  induction cells with
  | nil => simp [findInsertPos, firstMarkdownIdx]
  | cons c cs ih =>
    unfold findInsertPos at ih ⊢
    rw [firstMarkdownIdx]
    by_cases h : (c.cell_type == "markdown") = true
    · rw [if_pos h]; simp
    · rw [if_neg h]
      cases hcs : firstMarkdownIdx cs with
      | none => simp
      | some j =>
        rw [hcs] at ih
        rw [Option.map_some']
        simp only [List.length_cons] at ih ⊢
        omega

/-- Both output lists of `processVariants` hold, at the shifted index
`outIdx`, the image of the original cell `i`: the replaced cell on the
exercise side and the untouched cell on the answers side. -/
theorem processVariants_getElem? (cells : List Cell) (hasDataFiles : Bool)
    (setupCell : Cell) (slideCell : Option Cell) (i : Nat) (hi : i < cells.length) :
    (processVariants cells hasDataFiles setupCell slideCell).exercise[outIdx cells hasDataFiles slideCell i]?
      = some (replaceSolutionCell cells[i]) ∧
    (processVariants cells hasDataFiles setupCell slideCell).complete[outIdx cells hasDataFiles slideCell i]?
      = some cells[i] := by
  have hmap : (cells.map replaceSolutionCell)[i]? = some (replaceSolutionCell cells[i]) := by
    simp [List.getElem?_map, List.getElem?_eq_getElem hi]
  have hcells : cells[i]? = some cells[i] := List.getElem?_eq_getElem hi
  have hposC : findInsertPos cells ≤ cells.length := findInsertPos_le cells
  have hposE : findInsertPos cells ≤ (cells.map replaceSolutionCell).length := by
    simpa using hposC
  have key : ∀ (L : List Cell) (v : Cell), findInsertPos cells ≤ L.length → L[i]? = some v →
      (if hasDataFiles then L.insertIdx (findInsertPos cells) setupCell else L)[
        (if hasDataFiles && decide (findInsertPos cells ≤ i) then i + 1 else i)]? = some v := by
    intro L v hL hLi
    cases hasDataFiles with
    | false => simpa using hLi
    | true =>
      simp only [Bool.true_and, if_true]
      by_cases hle : findInsertPos cells ≤ i
      · rw [if_pos (by simpa using hle)]
        rw [getElem?_insertIdx_succ_of_le L setupCell _ i hle hL]
        exact hLi
      · rw [if_neg (by simpa using hle)]
        rw [getElem?_insertIdx_of_lt L setupCell _ i (by omega)]
        exact hLi
  have hE := key (cells.map replaceSolutionCell) (replaceSolutionCell cells[i]) hposE hmap
  have hC := key cells cells[i] hposC hcells
  cases slideCell with
  | none =>
    simp only [processVariants, outIdx, Option.isSome_none, Bool.false_eq_true, if_false]
    exact ⟨hE, hC⟩
  | some sc =>
    simp only [processVariants, outIdx, Option.isSome_some, if_true]
    refine ⟨?_, ?_⟩
    · rw [List.getElem?_cons_succ]; exact hE
    · rw [List.getElem?_cons_succ]; exact hC

/-- C1: for every cell whose tags include "solution", the exercise variant
written by `process_notebook` holds, at that cell's (shifted) position, the
empty replacement cell instead of the original content, while the answers
variant written by the same call still holds the cell with its original
content. -/
theorem solution_cell_cleared_in_exercise_kept_in_answers
    (cells : List Cell) (hasDataFiles : Bool) (setupCell : Cell) (slideCell : Option Cell)
    (i : Nat) (hi : i < cells.length) (hsol : isSolutionTagged cells[i] = true) :
    (processVariants cells hasDataFiles setupCell slideCell).exercise[outIdx cells hasDataFiles slideCell i]?
      = some emptySolutionCell ∧
    (processVariants cells hasDataFiles setupCell slideCell).complete[outIdx cells hasDataFiles slideCell i]?
      = some cells[i] := by
  have h := processVariants_getElem? cells hasDataFiles setupCell slideCell i hi
  rwa [replaceSolutionCell, if_pos hsol] at h

/-- Witness for C1 at a concrete notebook: a markdown cell followed by a
solution-tagged code cell, with a setup cell and a slide cell inserted. -/
theorem solution_cell_cleared_in_exercise_kept_in_answers_witness :
    (processVariants
        [{ cell_type := "markdown", tags := [], metaExtra := [], source := ["# intro"],
           execution_count := none, outputs := [] },
         { cell_type := "code", tags := ["solution"], metaExtra := [], source := ["x = 1"],
           execution_count := some 1, outputs := ["1"] }]
        true emptySolutionCell (some emptySolutionCell)).exercise[
      outIdx
        [{ cell_type := "markdown", tags := [], metaExtra := [], source := ["# intro"],
           execution_count := none, outputs := [] },
         { cell_type := "code", tags := ["solution"], metaExtra := [], source := ["x = 1"],
           execution_count := some 1, outputs := ["1"] }] true (some emptySolutionCell) 1]?
      = some emptySolutionCell ∧
    (processVariants
        [{ cell_type := "markdown", tags := [], metaExtra := [], source := ["# intro"],
           execution_count := none, outputs := [] },
         { cell_type := "code", tags := ["solution"], metaExtra := [], source := ["x = 1"],
           execution_count := some 1, outputs := ["1"] }]
        true emptySolutionCell (some emptySolutionCell)).complete[
      outIdx
        [{ cell_type := "markdown", tags := [], metaExtra := [], source := ["# intro"],
           execution_count := none, outputs := [] },
         { cell_type := "code", tags := ["solution"], metaExtra := [], source := ["x = 1"],
           execution_count := some 1, outputs := ["1"] }] true (some emptySolutionCell) 1]?
      = some
          { cell_type := "code", tags := ["solution"], metaExtra := [], source := ["x = 1"],
            execution_count := some 1, outputs := ["1"] } :=
  solution_cell_cleared_in_exercise_kept_in_answers _ true emptySolutionCell
    (some emptySolutionCell) 1 (by decide) (by decide)

/-! ### C2: how the two variants differ -/

/-- C2 counterexample: the claim says solution-tagged cells "differ only in
content" between the two variants, but the replacement on publish.py lines
353-359 also empties the cell metadata: at this one-cell notebook the exercise
cell's tags are `[]` while the answers cell keeps `["solution"]`, so the cells
differ in metadata as well as source. -/
theorem variants_not_only_content_differs :
    ((processVariants
        [{ cell_type := "code", tags := ["solution"], metaExtra := [], source := ["x = 1"],
           execution_count := some 1, outputs := ["1"] }]
        false emptySolutionCell none).exercise[0]?.map Cell.tags) ≠
    ((processVariants
        [{ cell_type := "code", tags := ["solution"], metaExtra := [], source := ["x = 1"],
           execution_count := some 1, outputs := ["1"] }]
        false emptySolutionCell none).complete[0]?.map Cell.tags) := by
  decide

/-- C2 as amended: the two variants have the same number of cells, and at
every position the cells are either identical, or the answers cell is
solution-tagged and the exercise cell is the fixed empty replacement cell
(so solution-tagged cells lose their metadata, outputs, execution count and
cell type along with their source, rather than differing only in content). -/
theorem variants_agree_except_solution_cells (cells : List Cell) (hasDataFiles : Bool)
    (setupCell : Cell) (slideCell : Option Cell) :
    (processVariants cells hasDataFiles setupCell slideCell).exercise.length =
      (processVariants cells hasDataFiles setupCell slideCell).complete.length ∧
    ∀ j : Nat,
      (processVariants cells hasDataFiles setupCell slideCell).exercise[j]? =
        (processVariants cells hasDataFiles setupCell slideCell).complete[j]? ∨
      ∃ c, (processVariants cells hasDataFiles setupCell slideCell).complete[j]? = some c ∧
        isSolutionTagged c = true ∧
        (processVariants cells hasDataFiles setupCell slideCell).exercise[j]? =
          some emptySolutionCell := by
  have hlenmap : (cells.map replaceSolutionCell).length = cells.length := by simp
  have hpos : findInsertPos cells ≤ cells.length := findInsertPos_le cells
  -- pointwise relation between the mapped list and the original list
  have base : ∀ k : Nat,
      (cells.map replaceSolutionCell)[k]? = cells[k]? ∨
      ∃ c, cells[k]? = some c ∧ isSolutionTagged c = true ∧
        (cells.map replaceSolutionCell)[k]? = some emptySolutionCell := by
    intro k
    cases hk : cells[k]? with
    | none => left; simp [List.getElem?_map, hk]
    | some c =>
      by_cases hs : isSolutionTagged c = true
      · right
        exact ⟨c, rfl, hs, by simp [List.getElem?_map, hk, replaceSolutionCell, hs]⟩
      · left
        simp [List.getElem?_map, hk, replaceSolutionCell, hs]
  -- the relation is preserved by inserting the same cell at the same position
  have step : ∀ k : Nat,
      (if hasDataFiles then (cells.map replaceSolutionCell).insertIdx (findInsertPos cells) setupCell
       else cells.map replaceSolutionCell)[k]? =
        (if hasDataFiles then cells.insertIdx (findInsertPos cells) setupCell else cells)[k]? ∨
      ∃ c, (if hasDataFiles then cells.insertIdx (findInsertPos cells) setupCell else cells)[k]? = some c ∧
        isSolutionTagged c = true ∧
        (if hasDataFiles then (cells.map replaceSolutionCell).insertIdx (findInsertPos cells) setupCell
         else cells.map replaceSolutionCell)[k]? = some emptySolutionCell := by
    intro k
    cases hasDataFiles with
    | false => simpa using base k
    | true =>
      simp only [if_true]
      rcases Nat.lt_trichotomy k (findInsertPos cells) with hk | hk | hk
      · rw [getElem?_insertIdx_of_lt _ _ _ _ hk, getElem?_insertIdx_of_lt _ _ _ _ hk]
        exact base k
      · subst hk
        left
        rw [getElem?_insertIdx_self _ _ _ (by simpa [hlenmap] using hpos),
          getElem?_insertIdx_self _ _ _ hpos]
      · obtain ⟨k', rfl⟩ : ∃ k', k = k' + 1 := ⟨k - 1, by omega⟩
        rw [getElem?_insertIdx_succ_of_le _ _ _ _ (by omega) (by simpa [hlenmap] using hpos),
          getElem?_insertIdx_succ_of_le _ _ _ _ (by omega) hpos]
        exact base k'
  have hlen1 : (List.insertIdx (findInsertPos cells) setupCell
      (cells.map replaceSolutionCell)).length = cells.length + 1 := by
    rw [List.length_insertIdx _ _ (by simpa [hlenmap] using hpos), hlenmap]
  have hlen2 : (List.insertIdx (findInsertPos cells) setupCell cells).length =
      cells.length + 1 :=
    List.length_insertIdx _ _ hpos
  constructor
  · cases slideCell with
    | none =>
      cases hasDataFiles with
      | false => simp [processVariants, hlenmap]
      | true => simp [processVariants, hlen1, hlen2]
    | some sc =>
      cases hasDataFiles with
      | false => simp [processVariants, hlenmap]
      | true => simp [processVariants, hlen1, hlen2]
  · intro j
    cases slideCell with
    | none => simpa [processVariants] using step j
    | some sc =>
      cases j with
      | zero => left; simp [processVariants]
      | succ j =>
        simpa [processVariants, List.getElem?_cons_succ] using step j

/-! ### C10: kernelspec normalisation (publish.py lines 338-347) -/

/-- Membership of a key in a string-to-string dict kept as an
insertion-ordered association list. -/
def hasKey : List (String × String) → String → Bool
  | [], _ => false
  | p :: ps, k => p.1 == k || hasKey ps k

/-- Python dict assignment `d[k] = v`: an existing key is updated in place,
otherwise the pair is appended. -/
def setKey (d : List (String × String)) (k v : String) : List (String × String) :=
  if hasKey d k then d.map (fun p => if p.1 == k then (k, v) else p)
  else d ++ [(k, v)]

/-- Python dict lookup `d[k]` (as an `Option`). -/
def lookupKey : List (String × String) → String → Option String
  | [], _ => none
  | p :: ps, k => if p.1 == k then some p.2 else lookupKey ps k

/-- Notebook-level metadata: the `kernelspec` entry (a string dict, possibly
absent) and the remaining metadata entries, untouched by lines 338-344. -/
structure NotebookMetadata where
  kernelspec : Option (List (String × String))
  extra : List (String × String)
deriving DecidableEq, Repr

/-- publish.py lines 338-344: ensure a kernelspec dict exists, then force its
`name`, `display_name` and `language` entries. -/
def setKernelspec (m : NotebookMetadata) : NotebookMetadata :=
  let ks := m.kernelspec.getD []
  let ks' := setKey (setKey (setKey ks "name" "python3") "display_name" "Python 3")
    "language" "python"
  { m with kernelspec := some ks' }

/-- Notebook metadata of the answers (`complete_nb`) and exercise
(`exercise_nb`) variants: the kernelspec is set on `complete_nb` (lines
338-344) and `exercise_nb` is a deep copy taken afterwards (line 347), so both
carry the same metadata value. -/
def processNotebookMetadata (m : NotebookMetadata) : NotebookMetadata × NotebookMetadata :=
  let complete := setKernelspec m
  (complete, complete)

theorem lookupKey_map_update_of_ne (d : List (String × String)) (k k' v : String)
    (h : k ≠ k') :
    lookupKey (d.map (fun p => if p.1 == k then (k, v) else p)) k' = lookupKey d k' := by
  induction d with
  | nil => rfl
  | cons p ps ih =>
    by_cases hp : (p.1 == k) = true
    · have hpk : p.1 = k := by simpa using hp
      have hkk' : (k == k') = false := by simpa using h
      have hpk' : (p.1 == k') = false := by simp [hpk]; simpa using h
      simp only [lookupKey, List.map_cons, hp, if_pos, hkk', hpk', Bool.false_eq_true,
        if_false]
      simpa using ih
    · by_cases hpk' : (p.1 == k') = true
      · simp [lookupKey, hp, hpk']
      · simp only [lookupKey, List.map_cons, hp, Bool.false_eq_true, if_false, hpk']
        simpa using ih

theorem lookupKey_append_single_of_ne (d : List (String × String)) (k k' v : String)
    (h : k ≠ k') : lookupKey (d ++ [(k, v)]) k' = lookupKey d k' := by
  induction d with
  | nil =>
    have hkk' : (k == k') = false := by simpa using h
    simp [lookupKey, hkk']
  | cons p ps ih =>
    by_cases hpk' : (p.1 == k') = true
    · simp [lookupKey, List.cons_append, hpk']
    · simp [lookupKey, List.cons_append, hpk', ih]

theorem lookupKey_map_update_self (d : List (String × String)) (k v : String)
    (h : hasKey d k = true) :
    lookupKey (d.map (fun p => if p.1 == k then (k, v) else p)) k = some v := by
  induction d with
  | nil => simp [hasKey] at h
  | cons p ps ih =>
    by_cases hp : (p.1 == k) = true
    · simp [lookupKey, hp]
    · simp only [hasKey, hp, Bool.false_or] at h
      simp only [lookupKey, List.map_cons, hp, Bool.false_eq_true, if_false]
      simpa using ih h

theorem lookupKey_append_single_self (d : List (String × String)) (k v : String)
    (h : hasKey d k = false) : lookupKey (d ++ [(k, v)]) k = some v := by
  induction d with
  | nil => simp [lookupKey]
  | cons p ps ih =>
    simp only [hasKey, Bool.or_eq_false_iff] at h
    simp [lookupKey, List.cons_append, h.1, ih h.2]

theorem lookupKey_setKey_self (d : List (String × String)) (k v : String) :
    lookupKey (setKey d k v) k = some v := by
  rw [setKey]
  by_cases h : hasKey d k = true
  · rw [if_pos h]; exact lookupKey_map_update_self d k v h
  · rw [if_neg h]
    exact lookupKey_append_single_self d k v (by simpa using h)

theorem lookupKey_setKey_of_ne (d : List (String × String)) (k k' v : String)
    (h : k ≠ k') : lookupKey (setKey d k v) k' = lookupKey d k' := by
  rw [setKey]
  by_cases hany : hasKey d k = true
  · rw [if_pos hany]; exact lookupKey_map_update_of_ne d k k' v h
  · rw [if_neg hany]; exact lookupKey_append_single_of_ne d k k' v h

/-- C10: both the exercise and the answers variant written by
`process_notebook` carry a kernelspec whose `name` is "python3",
`display_name` is "Python 3" and `language` is "python", whatever kernelspec
(if any) the source notebook declared. -/
theorem kernelspec_forced_python3 (m : NotebookMetadata) :
    ∃ ks, (processNotebookMetadata m).1.kernelspec = some ks ∧
      (processNotebookMetadata m).2.kernelspec = some ks ∧
      lookupKey ks "name" = some "python3" ∧
      lookupKey ks "display_name" = some "Python 3" ∧
      lookupKey ks "language" = some "python" := by
  refine ⟨_, rfl, rfl, ?_, ?_, ?_⟩
  · rw [lookupKey_setKey_of_ne _ _ _ _ (by decide),
      lookupKey_setKey_of_ne _ _ _ _ (by decide)]
    exact lookupKey_setKey_self _ _ _
  · rw [lookupKey_setKey_of_ne _ _ _ _ (by decide)]
    exact lookupKey_setKey_self _ _ _
  · exact lookupKey_setKey_self _ _ _

/-! ### Table of contents (`generate_toc_from_markdown`, publish.py lines 42-62) -/

/-- Split a character list at a separator character. -/
def splitSepAux (sep : Char) : List Char → List Char → List (List Char)
  | [], acc => [acc.reverse]
  | c :: cs, acc =>
    if c = sep then acc.reverse :: splitSepAux sep cs [] else splitSepAux sep cs (c :: acc)

/-- The lines of a string (the line structure that `re.MULTILINE` matching
works over). -/
def splitLines (s : String) : List String :=
  (splitSepAux '\n' s.toList []).map String.mk

/-- One line matches the pattern `^## (.+)$` of publish.py line 45: it starts
with "## " followed by at least one character (`.` cannot match a newline and
the line itself contains none). -/
def isSecondLevelHeading (line : String) : Bool :=
  match line.toList with
  | '#' :: '#' :: ' ' :: rest => !rest.isEmpty
  | _ => false

/-- The capture group of `^## (.+)$`: everything after "## ". -/
def headingTitle (line : String) : String :=
  String.mk (line.toList.drop 3)

/-- `re.findall(r'^## (.+)$', markdown_content, re.MULTILINE)` of publish.py
line 46: the titles of all second-level headings, in order. -/
def findHeaders (content : String) : List String :=
  (splitLines content).filterMap
    (fun l => if isSecondLevelHeading l then some (headingTitle l) else none)

/-- Python `\w` on a character (ASCII range). -/
def isWordChar (c : Char) : Bool := c.isAlphanum || c = '_'

/-- Drop leading and trailing whitespace (Python `str.strip()`). -/
def trimChars (cs : List Char) : List Char :=
  ((cs.dropWhile Char.isWhitespace).reverse.dropWhile Char.isWhitespace).reverse

/-- The anchor of publish.py line 59:
`re.sub(r'[^\w\s-]', '', header).strip().lower().replace(' ', '-')`. -/
def anchorOf (header : String) : String :=
  let kept := header.toList.filter (fun c => isWordChar c || c.isWhitespace || c = '-')
  String.mk (((trimChars kept).map Char.toLower).map (fun c => if c = ' ' then '-' else c))

/-- A TOC entry line, publish.py line 60: `- [{header}](#{anchor})`. -/
def tocEntryLine (header : String) : String :=
  "- [" ++ header ++ "](#" ++ anchorOf header ++ ")"

/-- The header list after the `has_useful_links` prepend of publish.py
lines 49-50. -/
def tocHeaderList (content : String) (hasUsefulLinks : Bool) : List String :=
  let headers := findHeaders content
  if hasUsefulLinks then "Useful Links" :: headers else headers

/-- The `toc_lines` list of publish.py lines 56-60 ( `[]` when the function
returns the empty string at line 53). -/
def generateTocLines (content : String) (hasUsefulLinks : Bool) : List String :=
  let headers := tocHeaderList content hasUsefulLinks
  if headers.isEmpty then []
  else "## Table of Contents\n" :: headers.map tocEntryLine

/-- The string returned by `generate_toc_from_markdown`, publish.py
lines 52-62. -/
def generateToc (content : String) (hasUsefulLinks : Bool) : String :=
  let tocLines := generateTocLines content hasUsefulLinks
  if tocLines.isEmpty then "" else String.intercalate "\n" tocLines ++ "\n"

/-- A TOC line that is an entry: it begins with `- [`. -/
def isTocEntry (line : String) : Bool :=
  match line.toList with
  | '-' :: ' ' :: '[' :: _ => true
  | _ => false

/-- The entries among the generated TOC lines. -/
def tocEntries (content : String) (hasUsefulLinks : Bool) : List String :=
  (generateTocLines content hasUsefulLinks).filter isTocEntry

/-- C3 counterexample: when the document declares links,
`generate_toc_from_markdown` is called with `has_useful_links=True`
(publish.py lines 682-683) and prepends a "Useful Links" entry that matches no
second-level heading of the source body, so the entries are not in one-to-one
correspondence with the body's headings. -/
theorem toc_entry_without_matching_heading :
    tocEntries "## A" true ≠ (findHeaders "## A").map tocEntryLine := by
  decide

theorem isTocEntry_tocEntryLine (h : String) : isTocEntry (tocEntryLine h) = true := by
  simp [isTocEntry, tocEntryLine]

/-- C3 as amended: the entries of the generated table of contents correspond
one-to-one and in order with the second-level "## " headings of the source
body, except that a single extra leading "Useful Links" entry is prepended
when `has_useful_links` is set (which `process_markdown` does exactly when the
document declares links). -/
theorem toc_entries_one_to_one_with_headings (content : String) (hasUsefulLinks : Bool) :
    tocEntries content hasUsefulLinks =
      ((if hasUsefulLinks then ["Useful Links"] else []) ++ findHeaders content).map
        tocEntryLine := by
  have hlist : tocHeaderList content hasUsefulLinks =
      (if hasUsefulLinks then ["Useful Links"] else []) ++ findHeaders content := by
    cases hasUsefulLinks <;> simp [tocHeaderList]
  rw [tocEntries, generateTocLines, hlist]
  by_cases hne : ((if hasUsefulLinks then ["Useful Links"] else []) ++
      findHeaders content).isEmpty = true
  · rw [if_pos hne]
    have : (if hasUsefulLinks then ["Useful Links"] else []) ++ findHeaders content = [] := by
      simpa using hne
    simp [this]
  · rw [if_neg hne]
    rw [List.filter_cons_of_neg (by simp [isTocEntry])]
    rw [List.filter_eq_self.mpr]
    intro a ha
    obtain ⟨h, _, rfl⟩ := List.mem_map.mp ha
    exact isTocEntry_tocEntryLine h

/-! ### Paths, glob and `create_data_zip` (publish.py lines 442-468) -/

/-- A POSIX pure path as pathlib sees it: an absolute flag plus the
(normalised, non-empty) name components. -/
structure PurePath where
  absolute : Bool
  parts : List String
deriving DecidableEq, Repr

/-- pathlib's `/` join (`base_dir / pattern`, publish.py line 449): an
absolute right operand replaces the left one. -/
def joinPath (base p : PurePath) : PurePath :=
  if p.absolute then p else ⟨base.absolute, base.parts ++ p.parts⟩

/-- Match the rest of a sequence against a `*` wildcard followed by a
continuation: the wildcard absorbs zero or more leading elements and the
continuation must accept the remainder. -/
def starMatch {α : Type} (cont : List α → Bool) : List α → Bool
  | [] => cont []
  | c :: cs => cont (c :: cs) || starMatch cont cs

/-- fnmatch-style match of one glob component against one name, with the `*`
(any sequence) and `?` (any one character) wildcards. -/
def compMatch : List Char → List Char → Bool
  | [], cs => cs.isEmpty
  | p :: ps, cs =>
    if p = '*' then starMatch (compMatch ps) cs
    else
      match cs with
      | [] => false
      | c :: cs' => (if p = '?' then true else p = c) && compMatch ps cs'

/-- Glob match of pattern components against path components;
`glob(..., recursive=True)` (publish.py line 450) gives a bare `**` component
the meaning "zero or more components". -/
def partsMatch : List String → List String → Bool
  | [], cs => cs.isEmpty
  | p :: ps, cs =>
    if p = "**" then starMatch (partsMatch ps) cs
    else
      match cs with
      | [] => false
      | c :: cs' => compMatch p.toList c.toList && partsMatch ps cs'

/-- A file path matches a glob pattern. -/
def globMatch (pat f : PurePath) : Bool :=
  (pat.absolute == f.absolute) && partsMatch pat.parts f.parts

/-- `glob(full_pattern, recursive=True)` over a filesystem given as the list
of its file paths (in directory-enumeration order). -/
def globFiles (fs : List PurePath) (pat : PurePath) : List PurePath :=
  fs.filter (globMatch pat)

/-- pathlib's purely lexical `Path.relative_to` (publish.py line 459):
succeeds exactly when the base's components are a prefix, `ValueError`
is `none`. -/
def relativeTo (p base : PurePath) : Option PurePath :=
  if p.absolute = base.absolute ∧ base.parts <+: p.parts then
    some ⟨false, p.parts.drop base.parts.length⟩
  else none

/-- The archive name chosen on publish.py lines 457-462: the path relative to
the notebook directory, or the path itself when `relative_to` raises. -/
def arcnameOf (baseDir f : PurePath) : PurePath :=
  match relativeTo f baseDir with
  | some r => r
  | none => f

/-- State of the `create_data_zip` loop: the `added_files` set (as the list
of additions in order), the zip entries written so far, and the patterns
warned about. -/
structure ZipState where
  added : List PurePath
  entries : List (PurePath × PurePath)
  warnings : List PurePath
deriving DecidableEq, Repr

/-- The inner loop of publish.py lines 455-466 over the matches of one
pattern: each match not seen before is written under its archive name and
recorded in `added_files`. -/
def addMatches (baseDir : PurePath) : ZipState → List PurePath → ZipState
  | st, [] => st
  | st, f :: ms =>
    let arcname := arcnameOf baseDir f
    if f ∈ st.added then addMatches baseDir st ms
    else
      addMatches baseDir
        { st with added := st.added ++ [f], entries := st.entries ++ [(f, arcname)] } ms

/-- The outer loop of publish.py lines 447-466 over the patterns: glob the
pattern relative to the base directory, warn when nothing matches, then add
the matches. -/
def zipGo (fs : List PurePath) (baseDir : PurePath) : ZipState → List PurePath → ZipState
  | st, [] => st
  | st, p :: rest =>
    let ms := globFiles fs (joinPath baseDir p)
    let st₁ :=
      { st with warnings := if ms.isEmpty then st.warnings ++ [p] else st.warnings }
    zipGo fs baseDir (addMatches baseDir st₁ ms) rest

/-- `create_data_zip(data_patterns, zip_path, base_dir)` (publish.py lines
442-468), returning the zip entries (file, archive name) in write order and
the patterns that produced a "no files match" warning. -/
def createDataZip (fs : List PurePath) (patterns : List PurePath) (baseDir : PurePath) :
    ZipState :=
  zipGo fs baseDir ⟨[], [], []⟩ patterns

/-- A glob component with no wildcard characters. -/
def isLiteralComp (s : String) : Bool :=
  s.toList.all (fun c => c ≠ '*' && c ≠ '?')

theorem compMatch_literal (pl cl : List Char) (hlit : ∀ c ∈ pl, c ≠ '*' ∧ c ≠ '?')
    (h : compMatch pl cl = true) : pl = cl := by
  induction pl generalizing cl with
  | nil =>
    cases cl with
    | nil => rfl
    | cons c cs => simp [compMatch] at h
  | cons p ps ih =>
    have hp := hlit p (by simp)
    rw [compMatch.eq_def] at h
    simp only at h
    rw [if_neg hp.1] at h
    cases cl with
    | nil => simp at h
    | cons c cs =>
      simp only [Bool.and_eq_true] at h
      obtain ⟨h1, h2⟩ := h
      rw [if_neg hp.2] at h1
      have hpc : p = c := by simpa using h1
      rw [hpc, ih cs (fun x hx => hlit x (List.mem_cons_of_mem p hx)) h2]

theorem partsMatch_literal_prefix (base pat cs : List String)
    (hlit : ∀ s ∈ base, isLiteralComp s = true)
    (h : partsMatch (base ++ pat) cs = true) :
    base <+: cs := by
  induction base generalizing cs with
  | nil => exact List.nil_prefix
  | cons b bs ih =>
    have hb : isLiteralComp b = true := hlit b (by simp)
    have hbchars : ∀ c ∈ b.toList, c ≠ '*' ∧ c ≠ '?' := by
      intro c hc
      have := (List.all_eq_true.mp hb) c hc
      constructor <;> · intro e; subst e; simp at this
    have hbne : b ≠ "**" := by
      intro e
      subst e
      exact absurd rfl (hbchars '*' (by decide)).1
    rw [List.cons_append, partsMatch.eq_def] at h
    simp only at h
    rw [if_neg hbne] at h
    cases cs with
    | nil => simp at h
    | cons c cs =>
      simp only [Bool.and_eq_true] at h
      obtain ⟨h1, h2⟩ := h
      have hbc : b = c := by
        have := compMatch_literal b.toList c.toList hbchars h1
        exact String.ext (by simpa [String.toList] using this)
      subst hbc
      obtain ⟨t, ht⟩ := ih cs (fun s hs => hlit s (List.mem_cons_of_mem b hs)) h2
      exact ⟨t, by rw [List.cons_append, ht]⟩

theorem addMatches_warnings (baseDir : PurePath) (st : ZipState) (ms : List PurePath) :
    (addMatches baseDir st ms).warnings = st.warnings := by
  induction ms generalizing st with
  | nil => rfl
  | cons f ms ih =>
    rw [addMatches]
    by_cases hf : f ∈ st.added
    · rw [if_pos hf]; exact ih st
    · rw [if_neg hf]; exact ih _

theorem addMatches_added_sub (baseDir : PurePath) (st : ZipState) (ms : List PurePath) :
    st.added ⊆ (addMatches baseDir st ms).added := by
  induction ms generalizing st with
  | nil => exact fun x hx => hx
  | cons f ms ih =>
    rw [addMatches]
    by_cases hf : f ∈ st.added
    · rw [if_pos hf]; exact ih st
    · rw [if_neg hf]
      intro x hx
      exact ih _ (by simp [hx])

theorem addMatches_mem (baseDir : PurePath) (st : ZipState) (ms : List PurePath)
    (f : PurePath) (hf : f ∈ ms) : f ∈ (addMatches baseDir st ms).added := by
  induction ms generalizing st with
  | nil => simp at hf
  | cons g ms ih =>
    rw [addMatches]
    rcases List.mem_cons.mp hf with rfl | hf'
    · by_cases hg : f ∈ st.added
      · rw [if_pos hg]; exact addMatches_added_sub baseDir st ms hg
      · rw [if_neg hg]
        exact addMatches_added_sub baseDir _ ms (by simp)
    · by_cases hg : g ∈ st.added
      · rw [if_pos hg]; exact ih st hf'
      · rw [if_neg hg]; exact ih _ hf'

theorem addMatches_inv (baseDir : PurePath) (st : ZipState) (ms : List PurePath)
    (h : st.entries = st.added.map (fun f => (f, arcnameOf baseDir f))) :
    (addMatches baseDir st ms).entries =
      (addMatches baseDir st ms).added.map (fun f => (f, arcnameOf baseDir f)) := by
  induction ms generalizing st with
  | nil => exact h
  | cons f ms ih =>
    rw [addMatches]
    by_cases hf : f ∈ st.added
    · rw [if_pos hf]; exact ih st h
    · rw [if_neg hf]
      exact ih _ (by simp [h])

theorem addMatches_nodup (baseDir : PurePath) (st : ZipState) (ms : List PurePath)
    (h : st.added.Nodup) : (addMatches baseDir st ms).added.Nodup := by
  induction ms generalizing st with
  | nil => exact h
  | cons f ms ih =>
    rw [addMatches]
    by_cases hf : f ∈ st.added
    · rw [if_pos hf]; exact ih st h
    · rw [if_neg hf]
      refine ih _ ?_
      simp only
      rw [List.nodup_append]
      refine ⟨h, List.nodup_singleton f, ?_⟩
      intro a ha hb
      simp only [List.mem_singleton] at hb
      subst hb
      exact hf ha

theorem zipGo_inv (fs : List PurePath) (baseDir : PurePath) (st : ZipState)
    (pats : List PurePath)
    (h : st.entries = st.added.map (fun f => (f, arcnameOf baseDir f))) :
    (zipGo fs baseDir st pats).entries =
      (zipGo fs baseDir st pats).added.map (fun f => (f, arcnameOf baseDir f)) := by
  induction pats generalizing st with
  | nil => exact h
  | cons p rest ih =>
    rw [zipGo]
    exact ih _ (addMatches_inv baseDir _ _ (by simpa using h))

theorem zipGo_added_sub (fs : List PurePath) (baseDir : PurePath) (st : ZipState)
    (pats : List PurePath) : st.added ⊆ (zipGo fs baseDir st pats).added := by
  induction pats generalizing st with
  | nil => exact fun x hx => hx
  | cons p rest ih =>
    rw [zipGo]
    intro x hx
    exact ih _ (addMatches_added_sub baseDir _ _ hx)

theorem zipGo_mem (fs : List PurePath) (baseDir : PurePath) (st : ZipState)
    (pats : List PurePath) (p : PurePath) (hp : p ∈ pats) (f : PurePath)
    (hf : f ∈ globFiles fs (joinPath baseDir p)) :
    f ∈ (zipGo fs baseDir st pats).added := by
  induction pats generalizing st with
  | nil => simp at hp
  | cons q rest ih =>
    rw [zipGo]
    rcases List.mem_cons.mp hp with rfl | hp'
    · exact zipGo_added_sub fs baseDir _ rest (addMatches_mem baseDir _ _ f hf)
    · exact ih _ hp'

theorem zipGo_nodup (fs : List PurePath) (baseDir : PurePath) (st : ZipState)
    (pats : List PurePath) (h : st.added.Nodup) :
    (zipGo fs baseDir st pats).added.Nodup := by
  induction pats generalizing st with
  | nil => exact h
  | cons p rest ih =>
    rw [zipGo]
    exact ih _ (addMatches_nodup baseDir _ _ (by simpa using h))

theorem zipGo_warn_sub (fs : List PurePath) (baseDir : PurePath) (st : ZipState)
    (pats : List PurePath) : st.warnings ⊆ (zipGo fs baseDir st pats).warnings := by
  induction pats generalizing st with
  | nil => exact fun x hx => hx
  | cons p rest ih =>
    rw [zipGo]
    intro x hx
    refine ih _ ?_
    rw [addMatches_warnings]
    by_cases hm : (globFiles fs (joinPath baseDir p)).isEmpty = true
    · simp [hm, hx]
    · simp [hm, hx]

theorem zipGo_warned (fs : List PurePath) (baseDir : PurePath) (st : ZipState)
    (pats : List PurePath) (p : PurePath) (hp : p ∈ pats)
    (hempty : globFiles fs (joinPath baseDir p) = []) :
    p ∈ (zipGo fs baseDir st pats).warnings := by
  induction pats generalizing st with
  | nil => simp at hp
  | cons q rest ih =>
    rw [zipGo]
    rcases List.mem_cons.mp hp with rfl | hp'
    · refine zipGo_warn_sub fs baseDir _ rest ?_
      rw [addMatches_warnings]
      simp [hempty]
    · exact ih _ hp'

theorem addMatches_ignores_warnings (baseDir : PurePath) (a : List PurePath)
    (e : List (PurePath × PurePath)) (w w' : List PurePath) (ms : List PurePath) :
    (addMatches baseDir ⟨a, e, w⟩ ms).added = (addMatches baseDir ⟨a, e, w'⟩ ms).added ∧
    (addMatches baseDir ⟨a, e, w⟩ ms).entries = (addMatches baseDir ⟨a, e, w'⟩ ms).entries := by
  induction ms generalizing a e with
  | nil => exact ⟨rfl, rfl⟩
  | cons f ms ih =>
    rw [addMatches, addMatches]
    by_cases hf : f ∈ a
    · rw [if_pos hf, if_pos hf]; exact ih a e
    · rw [if_neg hf, if_neg hf]; exact ih _ _

theorem zipGo_ignores_warnings (fs : List PurePath) (baseDir : PurePath)
    (a : List PurePath) (e : List (PurePath × PurePath)) (w w' : List PurePath)
    (pats : List PurePath) :
    (zipGo fs baseDir ⟨a, e, w⟩ pats).added = (zipGo fs baseDir ⟨a, e, w'⟩ pats).added ∧
    (zipGo fs baseDir ⟨a, e, w⟩ pats).entries = (zipGo fs baseDir ⟨a, e, w'⟩ pats).entries := by
  induction pats generalizing a e w w' with
  | nil => exact ⟨rfl, rfl⟩
  | cons p rest ih =>
    rw [zipGo, zipGo]
    simp only
    set ms := globFiles fs (joinPath baseDir p) with hms
    have h₁ := addMatches_ignores_warnings baseDir a e
      (if ms.isEmpty then w ++ [p] else w) (if ms.isEmpty then w' ++ [p] else w') ms
    set st₂ := addMatches baseDir ⟨a, e, if ms.isEmpty then w ++ [p] else w⟩ ms with hst₂
    set st₂' := addMatches baseDir ⟨a, e, if ms.isEmpty then w' ++ [p] else w'⟩ ms with hst₂'
    have e₂ : st₂ = ⟨st₂.added, st₂.entries, st₂.warnings⟩ := rfl
    have e₂' : st₂' = ⟨st₂'.added, st₂'.entries, st₂'.warnings⟩ := rfl
    rw [e₂, e₂', h₁.1, h₁.2]
    exact ih st₂'.added st₂'.entries st₂.warnings st₂'.warnings

theorem zipGo_skip_unmatched (fs : List PurePath) (baseDir : PurePath) (st : ZipState)
    (pats : List PurePath) :
    (zipGo fs baseDir st pats).entries =
      (zipGo fs baseDir st
        (pats.filter (fun p => !(globFiles fs (joinPath baseDir p)).isEmpty))).entries := by
  induction pats generalizing st with
  | nil => rfl
  | cons p rest ih =>
    by_cases hm : (globFiles fs (joinPath baseDir p)).isEmpty = true
    · have hempty : globFiles fs (joinPath baseDir p) = [] := by
        simpa [List.isEmpty_iff] using hm
      rw [List.filter_cons_of_neg (by simp [hm])]
      rw [zipGo]
      rw [hempty]
      simp only [List.isEmpty_nil, if_true]
      have hAM : addMatches baseDir ⟨st.added, st.entries, st.warnings ++ [p]⟩ [] =
          ⟨st.added, st.entries, st.warnings ++ [p]⟩ := rfl
      have est : st = ⟨st.added, st.entries, st.warnings⟩ := rfl
      calc (zipGo fs baseDir
              (addMatches baseDir ⟨st.added, st.entries, st.warnings ++ [p]⟩ []) rest).entries
          = (zipGo fs baseDir ⟨st.added, st.entries, st.warnings ++ [p]⟩ rest).entries := by
            rw [hAM]
        _ = (zipGo fs baseDir ⟨st.added, st.entries, st.warnings⟩ rest).entries :=
            (zipGo_ignores_warnings fs baseDir st.added st.entries _ _ rest).2
        _ = (zipGo fs baseDir st
              (rest.filter (fun p => !(globFiles fs (joinPath baseDir p)).isEmpty))).entries := by
            rw [← est]; exact ih st
    · rw [List.filter_cons_of_pos (by simp [hm])]
      rw [zipGo, zipGo]
      have hcond : (if (globFiles fs (joinPath baseDir p)).isEmpty = true
          then st.warnings ++ [p] else st.warnings) = st.warnings := if_neg hm
      rw [hcond]
      have est : ({ st with warnings := st.warnings } : ZipState) = st := rfl
      rw [est]
      exact ih _

/-- C4: every relative glob pattern of the declared data-file list that
matches at least one file gets each matched file written into the produced
archive under the archive path equal to the file's path relative to the
document's directory (publish.py lines 447-466; the directory is a concrete
path, so its components hold no wildcard characters). -/
theorem matched_file_archived_under_relative_path
    (fs patterns : List PurePath) (baseDir : PurePath) (p : PurePath)
    (hp : p ∈ patterns) (habs : p.absolute = false)
    (hlit : ∀ s ∈ baseDir.parts, isLiteralComp s = true)
    (f : PurePath) (hf : f ∈ globFiles fs (joinPath baseDir p)) :
    relativeTo f baseDir = some ⟨false, f.parts.drop baseDir.parts.length⟩ ∧
    (f, (⟨false, f.parts.drop baseDir.parts.length⟩ : PurePath)) ∈
      (createDataZip fs patterns baseDir).entries := by
  have hmatch : globMatch (joinPath baseDir p) f = true := by
    have := List.mem_filter.mp hf
    exact this.2
  have hjoin : joinPath baseDir p = ⟨baseDir.absolute, baseDir.parts ++ p.parts⟩ := by
    rw [joinPath, habs, if_neg (by simp)]
  rw [hjoin, globMatch] at hmatch
  simp only [Bool.and_eq_true, beq_iff_eq] at hmatch
  obtain ⟨habs2, hpm⟩ := hmatch
  have hpre : baseDir.parts <+: f.parts := partsMatch_literal_prefix _ _ _ hlit hpm
  have hrel : relativeTo f baseDir = some ⟨false, f.parts.drop baseDir.parts.length⟩ := by
    rw [relativeTo, if_pos ⟨habs2.symm, hpre⟩]
  refine ⟨hrel, ?_⟩
  have hmem : f ∈ (createDataZip fs patterns baseDir).added := by
    unfold createDataZip
    exact zipGo_mem fs baseDir _ patterns p hp f hf
  have hinv := zipGo_inv fs baseDir ⟨[], [], []⟩ patterns rfl
  unfold createDataZip at hmem ⊢
  rw [hinv]
  refine List.mem_map.mpr ⟨f, hmem, ?_⟩
  rw [arcnameOf, hrel]

/-- Witness for C4: one data file under the document directory, matched by a
one-component wildcard pattern, archived under its relative path. -/
theorem matched_file_archived_under_relative_path_witness :
    relativeTo ⟨false, ["nb", "data", "a.csv"]⟩ ⟨false, ["nb"]⟩ =
      some ⟨false, ["data", "a.csv"]⟩ ∧
    ((⟨false, ["nb", "data", "a.csv"]⟩ : PurePath),
        (⟨false, ["data", "a.csv"]⟩ : PurePath)) ∈
      (createDataZip [⟨false, ["nb", "data", "a.csv"]⟩] [⟨false, ["data", "*.csv"]⟩]
        ⟨false, ["nb"]⟩).entries :=
  matched_file_archived_under_relative_path
    [⟨false, ["nb", "data", "a.csv"]⟩] [⟨false, ["data", "*.csv"]⟩] ⟨false, ["nb"]⟩
    ⟨false, ["data", "*.csv"]⟩ (by decide) (by decide) (by decide)
    ⟨false, ["nb", "data", "a.csv"]⟩ (by decide)

/-- C5: over any pattern list, `create_data_zip` writes each distinct matched
file path at most once (the `added_files` dedup of publish.py lines 445 and
464-466); a pattern matching no files is warned about (line 453) while the
archive is still produced, with exactly the entries the matching patterns
contribute. -/
theorem datazip_dedup_and_unmatched_warn (fs patterns : List PurePath)
    (baseDir : PurePath) :
    ((createDataZip fs patterns baseDir).entries.map Prod.fst).Nodup ∧
    (∀ p ∈ patterns, globFiles fs (joinPath baseDir p) = [] →
      p ∈ (createDataZip fs patterns baseDir).warnings) ∧
    (createDataZip fs patterns baseDir).entries =
      (createDataZip fs
        (patterns.filter (fun p => !(globFiles fs (joinPath baseDir p)).isEmpty))
        baseDir).entries := by
  refine ⟨?_, ?_, ?_⟩
  · have hinv := zipGo_inv fs baseDir ⟨[], [], []⟩ patterns rfl
    unfold createDataZip
    rw [hinv, List.map_map]
    have : (Prod.fst ∘ fun f => ((f, arcnameOf baseDir f) : PurePath × PurePath)) = id := by
      funext f
      rfl
    rw [this, List.map_id]
    exact zipGo_nodup fs baseDir ⟨[], [], []⟩ patterns List.nodup_nil
  · intro p hp hempty
    unfold createDataZip
    exact zipGo_warned fs baseDir ⟨[], [], []⟩ patterns p hp hempty
  · unfold createDataZip
    exact zipGo_skip_unmatched fs baseDir ⟨[], [], []⟩ patterns

/-- Witness for C5: a file matched by two identical patterns is archived once,
and a third pattern matching nothing lands in the warnings while the entry
list is that of the matching patterns alone. -/
theorem datazip_dedup_and_unmatched_warn_witness :
    (((createDataZip [⟨false, ["nb", "a.csv"]⟩]
          [⟨false, ["*.csv"]⟩, ⟨false, ["*.csv"]⟩, ⟨false, ["*.txt"]⟩]
          ⟨false, ["nb"]⟩).entries.map Prod.fst).Nodup) ∧
    (⟨false, ["*.txt"]⟩ : PurePath) ∈
      (createDataZip [⟨false, ["nb", "a.csv"]⟩]
        [⟨false, ["*.csv"]⟩, ⟨false, ["*.csv"]⟩, ⟨false, ["*.txt"]⟩]
        ⟨false, ["nb"]⟩).warnings := by
  have h := datazip_dedup_and_unmatched_warn [⟨false, ["nb", "a.csv"]⟩]
    [⟨false, ["*.csv"]⟩, ⟨false, ["*.csv"]⟩, ⟨false, ["*.txt"]⟩] ⟨false, ["nb"]⟩
  exact ⟨h.1, h.2.1 ⟨false, ["*.txt"]⟩ (by decide) (by decide)⟩

/-! ### Item and section ordering in `create_index` (publish.py lines 744-795) -/

/-- Code-point comparison of character lists: `a ≤ b` as Python compares
strings. -/
def charsLe : List Char → List Char → Bool
  | [], _ => true
  | _ :: _, [] => false
  | a :: as, b :: bs => if a = b then charsLe as bs else decide (a < b)

/-- Python string `<=` (code-point lexicographic). -/
def strLe (a b : String) : Bool :=
  charsLe a.toList b.toList

theorem charsLe_total : ∀ a b : List Char, charsLe a b = true ∨ charsLe b a = true := by
  intro a
  induction a with
  | nil => intro b; left; rfl
  | cons x xs ih =>
    intro b
    cases b with
    | nil => right; rfl
    | cons y ys =>
      by_cases hxy : x = y
      · subst hxy
        rcases ih ys with h | h
        · left; simpa [charsLe] using h
        · right; simpa [charsLe] using h
      · rcases lt_or_gt_of_ne hxy with h | h
        · left; simp [charsLe, hxy, h]
        · right
          have hyx : y ≠ x := fun e => hxy e.symm
          simp [charsLe, hyx, h]

theorem charsLe_trans : ∀ a b c : List Char,
    charsLe a b = true → charsLe b c = true → charsLe a c = true := by
  intro a
  induction a with
  | nil => intro b c _ _; rfl
  | cons x xs ih =>
    intro b c h₁ h₂
    cases b with
    | nil => simp [charsLe] at h₁
    | cons y ys =>
      cases c with
      | nil => simp [charsLe] at h₂
      | cons z zs =>
        simp only [charsLe] at h₁ h₂ ⊢
        by_cases hxy : x = y
        · subst hxy
          rw [if_pos rfl] at h₁
          by_cases hyz : x = z
          · subst hyz
            rw [if_pos rfl] at h₂ ⊢
            exact ih ys zs h₁ h₂
          · rw [if_neg hyz] at h₂ ⊢
            exact h₂
        · rw [if_neg hxy] at h₁
          have hlt₁ : x < y := of_decide_eq_true h₁
          by_cases hyz : y = z
          · subst hyz
            rw [if_neg hxy]
            exact h₁
          · rw [if_neg hyz] at h₂
            have hlt₂ : y < z := of_decide_eq_true h₂
            have hxz : x < z := lt_trans hlt₁ hlt₂
            rw [if_neg (ne_of_lt hxz)]
            exact decide_eq_true hxz

theorem strLe_total (a b : String) : strLe a b = true ∨ strLe b a = true :=
  charsLe_total a.toList b.toList

theorem strLe_trans (a b c : String) (h₁ : strLe a b = true) (h₂ : strLe b c = true) :
    strLe a c = true :=
  charsLe_trans a.toList b.toList c.toList h₁ h₂

/-- One item metadata record as consumed by `create_index`: the fields used by
the grouping and sorting logic (`name`, `section` after the override in
`main`, and the optional `order` from the workshop metadata).  The remaining
record fields (title, description, file names, links, slides) do not
influence ordering. -/
structure Item where
  name : String
  sectionName : String
  order : Option Int
deriving DecidableEq, Repr

/-- The sort key of publish.py lines 784-788: `(0, order, '')` for items with
an order, `(1, 0, name)` for items without. -/
def itemKey (it : Item) : Nat × Int × String :=
  match it.order with
  | some o => (0, o, "")
  | none => (1, 0, it.name)

/-- Python tuple comparison of the sort keys (lexicographic). -/
def keyLe (x y : Nat × Int × String) : Bool :=
  if x.1 < y.1 then true
  else if y.1 < x.1 then false
  else if x.2.1 < y.2.1 then true
  else if y.2.1 < x.2.1 then false
  else strLe x.2.2 y.2.2

theorem keyLe_total (x y : Nat × Int × String) : keyLe x y = true ∨ keyLe y x = true := by
  unfold keyLe
  rcases strLe_total x.2.2 y.2.2 with h | h <;>
    · split_ifs <;> first | (left; rfl) | (right; rfl) | omega | (left; exact h) |
        (right; exact h)

theorem keyLe_trans (x y z : Nat × Int × String) (h₁ : keyLe x y = true)
    (h₂ : keyLe y z = true) : keyLe x z = true := by
  unfold keyLe at h₁ h₂ ⊢
  split_ifs at h₁ h₂ ⊢ <;>
    first
      | rfl
      | omega
      | simp at h₁
      | simp at h₂
      | exact strLe_trans _ _ _ h₁ h₂

/-- The item comparison used by `sorted(section_items, key=sort_key)`
(publish.py line 790). -/
def itemLe (a b : Item) : Prop :=
  keyLe (itemKey a) (itemKey b) = true

instance : DecidableRel itemLe := fun a b =>
  inferInstanceAs (Decidable (keyLe (itemKey a) (itemKey b) = true))

/-- The comparison behind `sorted(..., key=lambda x: x['name'], reverse=True)`
(publish.py lines 793-794): descending by name, stable like Python's sort. -/
def nameDescLe (a b : Item) : Prop :=
  strLe b.name a.name = true

instance : DecidableRel nameDescLe := fun a b =>
  inferInstanceAs (Decidable (strLe b.name a.name = true))

/-- The item ordering of publish.py lines 783-795: stable-sort all items by
the tuple key, keep the ordered ones (in that ascending order), sort the
unordered ones by name descending, and concatenate. -/
def sortItems (items : List Item) : List Item :=
  let sortedItems := List.insertionSort itemLe items
  let itemsWithOrder := sortedItems.filter (fun it => it.order.isSome)
  let itemsWithoutOrder :=
    List.insertionSort nameDescLe (sortedItems.filter (fun it => it.order.isNone))
  itemsWithOrder ++ itemsWithoutOrder

theorem keyLe_order_le (x y : Int) (h : keyLe (0, x, "") (0, y, "") = true) : x ≤ y := by
  unfold keyLe at h
  dsimp only at h
  split_ifs at h <;> omega

/-- C6: `create_index` lists a section's items as a permutation of the given
records in which every item with an order value precedes every item without
one, the ordered items appear in ascending order of their order values, and
the unordered items appear in descending order of their names. -/
theorem create_index_items_order (items : List Item) :
    (sortItems items).Perm items ∧
    List.Pairwise (fun a b => b.order.isSome = true → a.order.isSome = true)
      (sortItems items) ∧
    List.Pairwise (fun a b => ∀ x y, a.order = some x → b.order = some y → x ≤ y)
      ((sortItems items).filter (fun it => it.order.isSome)) ∧
    List.Pairwise (fun a b => strLe b.name a.name = true)
      ((sortItems items).filter (fun it => it.order.isNone)) := by
  haveI : IsTrans Item itemLe := ⟨fun _ _ _ h₁ h₂ => keyLe_trans _ _ _ h₁ h₂⟩
  haveI : IsTotal Item itemLe := ⟨fun _ _ => keyLe_total _ _⟩
  haveI : IsTrans Item nameDescLe := ⟨fun a b c h₁ h₂ => strLe_trans _ _ _ h₂ h₁⟩
  haveI : IsTotal Item nameDescLe := ⟨fun a b => strLe_total b.name a.name⟩
  have hsorted : List.Pairwise itemLe (List.insertionSort itemLe items) :=
    List.sorted_insertionSort itemLe items
  have hpermS : (List.insertionSort itemLe items).Perm items :=
    List.perm_insertionSort itemLe items
  have hnone : ∀ it : Item, it.order.isNone = !it.order.isSome := by
    intro it; cases it.order <;> rfl
  have hAmem : ∀ a ∈ (List.insertionSort itemLe items).filter
      (fun it => it.order.isSome), a.order.isSome = true :=
    fun a ha => (List.mem_filter.mp ha).2
  have hpermB : (List.insertionSort nameDescLe
        ((List.insertionSort itemLe items).filter (fun it => it.order.isNone))).Perm
      ((List.insertionSort itemLe items).filter (fun it => it.order.isNone)) :=
    List.perm_insertionSort nameDescLe _
  have hBmem : ∀ b ∈ List.insertionSort nameDescLe
      ((List.insertionSort itemLe items).filter (fun it => it.order.isNone)),
      b.order.isNone = true :=
    fun b hb => (List.mem_filter.mp (hpermB.mem_iff.mp hb)).2
  have hsplit : sortItems items =
      (List.insertionSort itemLe items).filter (fun it => it.order.isSome) ++
        List.insertionSort nameDescLe
          ((List.insertionSort itemLe items).filter (fun it => it.order.isNone)) := rfl
  refine ⟨?_, ?_, ?_, ?_⟩
  · rw [hsplit]
    refine List.Perm.trans (List.Perm.append_left _ hpermB) ?_
    have hBq : (List.insertionSort itemLe items).filter (fun it => it.order.isNone) =
        (List.insertionSort itemLe items).filter (fun it => !it.order.isSome) :=
      List.filter_congr (fun it _ => hnone it)
    rw [hBq]
    exact List.Perm.trans (List.filter_append_perm _ _) hpermS
  · rw [hsplit]
    refine List.pairwise_append.mpr ⟨?_, ?_, ?_⟩
    · exact List.pairwise_of_forall_mem_list (fun a ha _ _ _ => hAmem a ha)
    · refine List.pairwise_of_forall_mem_list (fun a _ b hb hbs => ?_)
      have := hBmem b hb
      rw [hnone b, hbs] at this
      simp at this
    · exact fun a ha b _ _ => hAmem a ha
  · have hA3 : ((List.insertionSort itemLe items).filter
        (fun it => it.order.isSome)).filter (fun it => it.order.isSome) =
        (List.insertionSort itemLe items).filter (fun it => it.order.isSome) :=
      List.filter_eq_self.mpr hAmem
    have hB3 : (List.insertionSort nameDescLe
        ((List.insertionSort itemLe items).filter
          (fun it => it.order.isNone))).filter (fun it => it.order.isSome) = [] := by
      refine List.filter_eq_nil_iff.mpr (fun b hb => ?_)
      have h := hBmem b hb
      rw [hnone b] at h
      simpa using h
    rw [hsplit, List.filter_append, hA3, hB3, List.append_nil]
    refine List.Pairwise.imp ?_ (List.Pairwise.filter _ hsorted)
    intro a b hab x y hx hy
    have hka : itemKey a = (0, x, "") := by simp [itemKey, hx]
    have hkb : itemKey b = (0, y, "") := by simp [itemKey, hy]
    rw [itemLe, hka, hkb] at hab
    exact keyLe_order_le x y hab
  · have hA4 : ((List.insertionSort itemLe items).filter
        (fun it => it.order.isSome)).filter (fun it => it.order.isNone) = [] := by
      refine List.filter_eq_nil_iff.mpr (fun a ha => ?_)
      have h := hAmem a ha
      rw [hnone a, h]
      simp
    have hB4 : (List.insertionSort nameDescLe
        ((List.insertionSort itemLe items).filter
          (fun it => it.order.isNone))).filter (fun it => it.order.isNone) =
        List.insertionSort nameDescLe
          ((List.insertionSort itemLe items).filter (fun it => it.order.isNone)) :=
      List.filter_eq_self.mpr hBmem
    rw [hsplit, List.filter_append, hA4, hB4, List.nil_append]
    exact List.Pairwise.imp (fun h => h) (List.sorted_insertionSort nameDescLe _)

/-- An entry of the configuration's `sections` list: `main` and `create_index`
accept either a mapping (with optional `title` and `folder` keys) or a plain
string (publish.py lines 760-763 and 897-906). -/
inductive SectionCfg where
  | strCfg (s : String)
  | dictCfg (title folder : Option String)
deriving DecidableEq, Repr

/-- The title `create_index` uses for a configured section (publish.py line
762): `section_cfg.get('title', section_cfg.get('folder'))` for mapping
entries; plain-string entries fail the `isinstance(section_cfg, dict)` test
on line 761 and yield nothing. -/
def dictTitle : SectionCfg → Option String
  | SectionCfg.dictCfg t f => t.orElse (fun _ => f)
  | SectionCfg.strCfg _ => none

/-- Append each element not already present (the pattern of the
`if x not in acc: acc.append(x)` loops in `create_index`). -/
def appendNew : List String → List String → List String
  | acc, [] => acc
  | acc, x :: rest =>
    if x ∈ acc then appendNew acc rest else appendNew (acc ++ [x]) rest

/-- The keys of the `sections` dict of publish.py lines 749-753: the distinct
section names of the items, in first-occurrence order (Python dicts preserve
insertion order). -/
def sectionKeys (items : List Item) : List String :=
  appendNew [] (items.map (fun it => it.sectionName))

/-- The loop of publish.py lines 759-764: titles of mapping-form config
entries whose section holds items, in configuration order. -/
def configOrderPass (keys : List String) : List SectionCfg → List String → List String
  | [], acc => acc
  | c :: cs, acc =>
    match dictTitle c with
    | some title =>
      if title ∈ keys then configOrderPass keys cs (acc ++ [title])
      else configOrderPass keys cs acc
    | none => configOrderPass keys cs acc

/-- Python string `<=` as a decidable relation, for `sorted(...)`. -/
def strLeProp (a b : String) : Prop := strLe a b = true

instance : DecidableRel strLeProp := fun a b =>
  inferInstanceAs (Decidable (strLe a b = true))

/-- The full `section_order` of publish.py lines 758-769: configured sections
holding items first, then the remaining sections in `sorted(...)` order,
skipping any already present. -/
def sectionOrder (cfgs : List SectionCfg) (items : List Item) : List String :=
  let keys := sectionKeys items
  appendNew (configOrderPass keys cfgs [])
    (List.insertionSort strLeProp keys)

/-- The section order the claim describes, taking "listed in the
configuration" at face value: every configured entry (string or mapping form)
holding items in configuration order, then the unlisted sections
alphabetically. -/
def claimedSectionOrder (cfgs : List SectionCfg) (items : List Item) : List String :=
  let keys := sectionKeys items
  let listed := cfgs.filterMap (fun c =>
    match c with
    | SectionCfg.strCfg s => some s
    | SectionCfg.dictCfg t f => t.orElse (fun _ => f))
  listed.filter (fun t => decide (t ∈ keys)) ++
    (List.insertionSort strLeProp keys).filter (fun t => decide (t ∉ listed))

theorem appendNew_nodup (l : List String) : ∀ acc : List String, acc.Nodup →
    (appendNew acc l).Nodup := by
  induction l with
  | nil => intro acc h; exact h
  | cons x rest ih =>
    intro acc h
    rw [appendNew]
    by_cases hx : x ∈ acc
    · rw [if_pos hx]; exact ih acc h
    · rw [if_neg hx]
      refine ih _ ?_
      rw [List.nodup_append]
      refine ⟨h, List.nodup_singleton x, ?_⟩
      intro a ha hb
      simp only [List.mem_singleton] at hb
      subst hb
      exact hx ha

theorem appendNew_eq_filter (l : List String) : ∀ acc : List String, l.Nodup →
    appendNew acc l = acc ++ l.filter (fun s => decide (s ∉ acc)) := by
  induction l with
  | nil => intro acc _; simp [appendNew]
  | cons x rest ih =>
    intro acc h
    have hx_rest : x ∉ rest := (List.nodup_cons.mp h).1
    have hrest : rest.Nodup := (List.nodup_cons.mp h).2
    rw [appendNew]
    by_cases hx : x ∈ acc
    · rw [if_pos hx, ih acc hrest]
      have : (List.filter (fun s => decide (s ∉ acc)) (x :: rest)) =
          List.filter (fun s => decide (s ∉ acc)) rest :=
        List.filter_cons_of_neg (by simpa using hx)
      rw [this]
    · rw [if_neg hx, ih _ hrest]
      have hcong : List.filter (fun s => decide (s ∉ acc ++ [x])) rest =
          List.filter (fun s => decide (s ∉ acc)) rest := by
        refine List.filter_congr (fun s hs => ?_)
        have hsx : s ≠ x := fun e => hx_rest (e ▸ hs)
        simp [List.mem_append, hsx]
      rw [hcong]
      have hfcons : List.filter (fun s => decide (s ∉ acc)) (x :: rest) =
          x :: List.filter (fun s => decide (s ∉ acc)) rest :=
        List.filter_cons_of_pos (by simpa using hx)
      rw [hfcons, List.append_assoc, List.singleton_append]

theorem configOrderPass_spec (keys : List String) (cfgs : List SectionCfg) :
    ∀ acc : List String, configOrderPass keys cfgs acc =
      acc ++ (cfgs.filterMap dictTitle).filter (fun t => decide (t ∈ keys)) := by
  induction cfgs with
  | nil => intro acc; simp [configOrderPass]
  | cons c cs ih =>
    intro acc
    rw [configOrderPass]
    cases hc : dictTitle c with
    | none =>
      simp only
      rw [ih acc, List.filterMap_cons_none hc]
    | some title =>
      simp only
      by_cases ht : title ∈ keys
      · rw [if_pos ht, ih _, List.filterMap_cons_some hc,
          List.filter_cons_of_pos (by simpa using ht), List.append_assoc,
          List.singleton_append]
      · rw [if_neg ht, ih acc, List.filterMap_cons_some hc,
          List.filter_cons_of_neg (by simpa using ht)]

/-- C7 counterexample: with the configuration sections `["B", {title: "A"}]`
and items in both sections, `create_index` emits `A` before `B` because the
plain-string entry `"B"` fails the `isinstance(..., dict)` test of publish.py
line 761 and is only picked up by the alphabetical pass, while the claim's
configuration order would put the listed `B` first. -/
theorem section_order_string_entry_counterexample :
    sectionOrder [SectionCfg.strCfg "B", SectionCfg.dictCfg (some "A") none]
        [⟨"x", "B", none⟩, ⟨"y", "A", none⟩] = ["A", "B"] ∧
    claimedSectionOrder [SectionCfg.strCfg "B", SectionCfg.dictCfg (some "A") none]
        [⟨"x", "B", none⟩, ⟨"y", "A", none⟩] = ["B", "A"] := by
  decide

/-- C7 as amended: `create_index` emits first the sections of mapping-form
configuration entries that hold items, in configuration order, and then every
other section holding items (including sections listed only as plain-string
entries) in ascending alphabetical order. -/
theorem section_order_config_then_alphabetical (cfgs : List SectionCfg)
    (items : List Item) :
    sectionOrder cfgs items =
      (cfgs.filterMap dictTitle).filter (fun t => decide (t ∈ sectionKeys items)) ++
        (List.insertionSort strLeProp (sectionKeys items)).filter
          (fun t => decide (t ∉ (cfgs.filterMap dictTitle).filter
            (fun u => decide (u ∈ sectionKeys items)))) ∧
    List.Pairwise (fun a b => strLe a b = true)
      ((List.insertionSort strLeProp (sectionKeys items)).filter
        (fun t => decide (t ∉ (cfgs.filterMap dictTitle).filter
          (fun u => decide (u ∈ sectionKeys items))))) := by
  haveI : IsTrans String strLeProp := ⟨fun a b c h₁ h₂ => strLe_trans a b c h₁ h₂⟩
  haveI : IsTotal String strLeProp := ⟨fun a b => strLe_total a b⟩
  constructor
  · rw [sectionOrder]
    have hkeys : (sectionKeys items).Nodup := appendNew_nodup _ [] List.nodup_nil
    have hsortedKeys : (List.insertionSort strLeProp (sectionKeys items)).Nodup :=
      (List.perm_insertionSort strLeProp (sectionKeys items)).symm.nodup hkeys
    rw [appendNew_eq_filter _ _ hsortedKeys, configOrderPass_spec, List.nil_append]
  · refine List.Pairwise.imp (fun h => h) (List.Pairwise.filter _ ?_)
    exact List.sorted_insertionSort strLeProp (sectionKeys items)

/-! ### Run-level model of `main` (publish.py lines 876-947)

The rest of the file models one whole run of the tool: the filesystem is
threaded through the processing steps as explicit state, uncaught Python
exceptions and `sys.exit(1)` are the two failure modes, and the external
pure subroutines that no claim depends on - the `markdown` library renderer,
the thumbnail tools invoked through `subprocess`, and the regex scan for
referenced media files - are carried as function-valued parameters of the
world, shared by the runs being compared.  Constant HTML/CSS wrapper text
(the style sheet of `markdown_to_html` and the slide-embed fragment) is
abbreviated to structured content, since no claim mentions its text. -/

/-- `pathlib.Path` of a path string: absolute when it starts with `/`;
empty and `.` components are dropped, as pathlib normalises them away. -/
def pathOfString (s : String) : PurePath :=
  let comps := (splitSepAux '/' s.toList []).map String.mk
  ⟨decide (s.toList.head? = some '/'),
    comps.filter (fun c => c ≠ "" && c ≠ ".")⟩

/-- The parent directory of a path (`Path.parent`). -/
def parentDir (p : PurePath) : PurePath :=
  ⟨p.absolute, p.parts.dropLast⟩

/-- The final component of a path (`Path.name`). -/
def lastComp (p : PurePath) : String :=
  p.parts.getLastD ""

/-- `Path.stem`: the final component without its last suffix. -/
def stemOf (p : PurePath) : String :=
  let cs := (lastComp p).toList
  match (cs.reverse.dropWhile (fun c => c ≠ '.')) with
  | [] => lastComp p
  | _ :: rest => if rest.isEmpty then lastComp p else String.mk rest.reverse

/-- One path is inside another (used for `shutil.rmtree` of the output
directory and the write-framing lemmas).  A directory is inside itself. -/
def underDir (d p : PurePath) : Bool :=
  (d.absolute == p.absolute) && d.parts.isPrefixOf p.parts

/-- A `(name, url, description)` link record from the metadata. -/
structure Link where
  name : Option String
  url : Option String
  desc : Option String
deriving DecidableEq, Repr

/-- The `metadata.workshop` object of a notebook (the fields `process_notebook`
reads). -/
structure WorkshopMeta where
  title : Option String
  description : Option String
  slides : Option String
  dataFiles : List PurePath
  install : Option String
  links : List Link
  order : Option Int
deriving DecidableEq, Repr

/-- A parsed notebook file: its notebook-level metadata (kernelspec part),
its workshop metadata (if any) and its cells. -/
structure NotebookDoc where
  meta : NotebookMetadata
  workshop : Option WorkshopMeta
  cells : List Cell
deriving DecidableEq, Repr

/-- The frontmatter of a markdown document (the fields `process_markdown`
reads). -/
structure MdFront where
  title : Option String
  description : Option String
  slides : Option String
  dataFiles : List PurePath
  links : List Link
  order : Option Int
deriving DecidableEq, Repr

/-- Content of one file of the modelled filesystem.  Input notebooks carry
their parse result (`none` models a `json.load` failure), markdown sources
carry their frontmatter parse result (`none` models absent or invalid
frontmatter, which `extract_markdown_frontmatter` swallows) and body.
Output artifacts are structured: notebook files as metadata plus cells (what
`json.dump` serialises), zip archives as their entry list, HTML documents as
title and rendered body. -/
inductive FileContent where
  | notebookJson (parsed : Option NotebookDoc)
  | markdownText (front : Option MdFront) (body : String)
  | binary (data : String)
  | notebookOut (meta : NotebookMetadata) (cells : List Cell)
  | zipArchive (entries : List (PurePath × PurePath))
  | htmlDoc (title body : String)
deriving DecidableEq, Repr

/-- The filesystem: files with contents (in directory-enumeration order) and
the set of directories. -/
structure FS where
  files : List (PurePath × FileContent)
  dirs : List PurePath
deriving DecidableEq, Repr

/-- First-match lookup in a file list. -/
def lookupFile : List (PurePath × FileContent) → PurePath → Option FileContent
  | [], _ => none
  | e :: es, p => if e.1 == p then some e.2 else lookupFile es p

/-- Read a file. -/
def fsGet (fs : FS) (p : PurePath) : Option FileContent :=
  lookupFile fs.files p

/-- `Path.exists()`: a file or a directory. -/
def fsExists (fs : FS) (p : PurePath) : Bool :=
  (fsGet fs p).isSome || p ∈ fs.dirs

/-- Write (create or overwrite) a file, like `open(..., 'w')`. -/
def fsWrite (fs : FS) (p : PurePath) (c : FileContent) : FS :=
  if fs.files.any (fun e => e.1 == p) then
    ⟨fs.files.map (fun e => if e.1 == p then (p, c) else e), fs.dirs⟩
  else ⟨fs.files ++ [(p, c)], fs.dirs⟩

/-- `shutil.rmtree`: remove every file and directory under (and including)
the given directory. -/
def rmTree (fs : FS) (d : PurePath) : FS :=
  ⟨fs.files.filter (fun e => !underDir d e.1), fs.dirs.filter (fun p => !underDir d p)⟩

/-- `Path.mkdir(exist_ok=True)` (parent creation is collapsed into the same
step). -/
def mkdirFs (fs : FS) (d : PurePath) : FS :=
  if d ∈ fs.dirs then fs else ⟨fs.files, fs.dirs ++ [d]⟩

/-- `Path(folder).glob(pat)` (non-recursive): the files directly inside
`folder` whose name matches the pattern, in enumeration order. -/
def dirGlob (fs : FS) (folder : PurePath) (pat : String) : List PurePath :=
  (fs.files.map (fun e => e.1)).filter (fun p =>
    (p.absolute == folder.absolute) && folder.parts.isPrefixOf p.parts &&
      partsMatch [pat] (p.parts.drop folder.parts.length))

/-- Substring test on character lists. -/
def listInfix (nd : List Char) : List Char → Bool
  | [] => nd.isEmpty
  | c :: cs => nd.isPrefixOf (c :: cs) || listInfix nd cs

/-- The checkpoint test of publish.py line 915 (the substring contains no
separator, so it occurs in the joined path string exactly when it occurs in
some component). -/
def containsCheckpoint (p : PurePath) : Bool :=
  p.parts.any (fun s => listInfix ".ipynb_checkpoints".toList s.toList)

/-- One entry of the configuration's `sections` list. -/
inductive RunSection where
  | strS (s : String)
  | dictS (folder : Option String) (title : Option String) (slides : Option String)
deriving DecidableEq, Repr

/-- The workshop configuration (the keys `main`, `create_setup_cell` and
`create_index` read). -/
structure Config where
  githubRepo : String
  githubBranch : String
  title : String
  description : String
  outputDirName : String
  sections : List RunSection
deriving DecidableEq, Repr

/-- The defaults of `load_config` (publish.py lines 236-243) when
`workshop-config.yaml` is missing; `sections` defaults to `[]` wherever it is
read. -/
def defaultConfig : Config :=
  { githubRepo := "jsoma/natural-pdf-workshop", githubBranch := "main",
    title := "Workshop", description := "", outputDirName := "docs",
    sections := [] }

/-- The configuration file as found at startup: absent (defaults are used),
unreadable (a YAML error, an uncaught exception), or parsed. -/
inductive ConfigSrc where
  | missing
  | invalid
  | parsed (c : Config)
deriving DecidableEq, Repr

/-- The effective configuration for a run that gets past `load_config`. -/
def cfgOf : ConfigSrc → Config
  | ConfigSrc.missing => defaultConfig
  | ConfigSrc.invalid => defaultConfig
  | ConfigSrc.parsed c => c

/-- The pure external subroutines of a run, shared by the runs a determinism
comparison relates: the `markdown` library (availability and rendering), the
external thumbnail generators of `create_slide_thumbnail` (returning the
thumbnail bytes, or `none` when both tools fail), and the regex scan of
`find_and_copy_referenced_files` / `copy_markdown_referenced_files`
(returning the matched local file references of a text, URLs already
skipped). -/
structure Tools where
  mdLib : Bool
  renderMarkdown : String → String
  thumbnail : PurePath → Option String
  refExtract : String → List String

/-- A world a run executes in. -/
structure World where
  configSrc : ConfigSrc
  fs : FS
  tools : Tools

/-- How a run terminates: normally (exit status 0), through `sys.exit(1)`,
or through an uncaught Python exception (also a nonzero exit status). -/
inductive Outcome where
  | exitZero
  | exitOneCode
  | exnExit
deriving DecidableEq, Repr

/-- The two failure modes, as an `Except` error. -/
inductive Failure where
  | exitOne
  | uncaught
deriving DecidableEq, Repr

/-- Python `str.split()` on the package list (space-separated names). -/
def splitWs (s : String) : List String :=
  ((splitSepAux ' ' s.toList []).map String.mk).filter (fun t => t ≠ "")

/-- `create_setup_cell` (publish.py lines 248-315).  Literal braces of the
embedded f-string text are written with `\x7b`/`\x7d` escapes.  The two
adjacent string literals of lines 256-257 (no comma between them) form one
source element, as in the source. -/
def createSetupCell (zipName : String) (cfg : Config) (installPkgs : String)
    (links : List Link) : Cell :=
  let head : List String := [
    "# First we need to download some things!\n",
    "# Run this cell to get the necessary data and software\nimport os\n",
    "import urllib.request\n",
    "import zipfile\n",
    "\n"]
  let pkgLines : List String :=
    if installPkgs ≠ "" then
      ["# Install required packages\n"] ++
        ((splitWs installPkgs).map
          (fun p => "!pip install --upgrade --quiet " ++ p ++ "\n")) ++
        ["\n"]
    else []
  let dl : List String := [
    "# Download and extract data files\n",
    "url = 'https://github.com/" ++ cfg.githubRepo ++ "/raw/" ++ cfg.githubBranch ++
      "/" ++ cfg.outputDirName ++ "/" ++ zipName ++ "'\n",
    "print(f'Downloading data from \x7burl\x7d...')\n",
    "urllib.request.urlretrieve(url, '" ++ zipName ++ "')\n",
    "\n",
    "print('Extracting " ++ zipName ++ "...')\n",
    "with zipfile.ZipFile('" ++ zipName ++ "', 'r') as zip_ref:\n",
    "    zip_ref.extractall('.')\n",
    "\n",
    "os.remove('" ++ zipName ++ "')\n",
    "print('✓ Data files extracted!')"]
  let linkLines : List String :=
    if links.isEmpty then []
    else
      ["\n", "# Useful links:\n"] ++ links.map (fun l =>
        let nm := l.name.getD "Link"
        let url := l.url.getD "#"
        let d := l.desc.getD ""
        if d ≠ "" then "# - " ++ nm ++ ": " ++ url ++ " (" ++ d ++ ")\n"
        else "# - " ++ nm ++ ": " ++ url ++ "\n")
  { cell_type := "code", tags := [], metaExtra := [],
    source := head ++ pkgLines ++ dl ++ linkLines,
    execution_count := none, outputs := [] }

/-- The slide-link markdown cell of publish.py lines 392-396 (JSON keys the
cell dict does not carry are the default field values). -/
def slideLinkCell (slideFile : String) : Cell :=
  { cell_type := "markdown", tags := [], metaExtra := [],
    source := ["**Slides:** [" ++ slideFile ++ "](./" ++ slideFile ++ ")"],
    execution_count := none, outputs := [] }

/-- One item metadata record as returned by the processors and decorated by
`main` before `create_index` consumes it. -/
structure ItemInfo where
  name : String
  title : String
  description : String
  isMarkdown : Bool
  dataFile : Option String
  sectionName : String
  sectionFolder : String
  order : Option Int
  links : List Link
  slides : Option String
  sectionSlides : Option String
deriving DecidableEq, Repr

/-- The effective slide reference of a document: its own `slides` metadata,
or the section's when the document declares none (publish.py lines 327-329
and 662-664). -/
def effSlides (own sectionSlides : Option String) : Option String :=
  match own with
  | some s => some s
  | none => sectionSlides

/-- Whether a slide reference can be located at either of its two candidate
locations: relative to the document's directory, or as a path from the
project root (publish.py lines 402-405 and 596-599). -/
def slideLocatable (fs : FS) (docDir : PurePath) (s : String) : Bool :=
  (fsGet fs (joinPath docDir (pathOfString s))).isSome ||
    (fsGet fs (pathOfString s)).isSome

/-- The joined source text of the markdown cells, which
`find_and_copy_referenced_files` scans. -/
def joinedMarkdownSource (cells : List Cell) : String :=
  String.intercalate ""
    ((cells.filter (fun c => c.cell_type == "markdown")).map
      (fun c => String.intercalate "" c.source))

/-- The copy loop shared by `find_and_copy_referenced_files` and
`copy_markdown_referenced_files` (publish.py lines 481-503 and 519-538): for
each extracted reference that exists relative to the document, copy it to the
same relative location in the output tree unless already present there. -/
def copyRefs (tools : Tools) (fs : FS) (docDir outputDir : PurePath)
    (content : String) : FS :=
  (tools.refExtract content).foldl (fun fs r =>
    let src := joinPath docDir (pathOfString r)
    match fsGet fs src with
    | some data =>
      let dest := joinPath outputDir (pathOfString r)
      if (fsGet fs dest).isSome then fs else fsWrite fs dest data
    | none => fs) fs

/-- `generate_slide_embed` (publish.py lines 593-650): locate the slide file
at its two candidate locations - relative to the document's directory, then
as a path from the project root - and `sys.exit(1)` when neither exists
(lines 596-604); copy it into the output tree if not already there (lines
606-610); attempt a thumbnail via `create_slide_thumbnail` (lines 542-591,
the external tool calls abstracted by `tools.thumbnail`, failure degrading to
the click-to-load placeholder); return the embed fragment, abbreviated to its
data.  On failure the error carries the filesystem as left behind. -/
def generateSlideEmbedRun (tools : Tools) (slideFile : String)
    (docDir outputDir : PurePath) (fs : FS) :
    Except (Failure × FS) (FS × String) :=
  let cand1 := joinPath docDir (pathOfString slideFile)
  let sourcePdf := if (fsGet fs cand1).isSome then cand1 else pathOfString slideFile
  if (fsGet fs sourcePdf).isSome then
    let destPdf := joinPath outputDir (pathOfString slideFile)
    let fs := if (fsGet fs destPdf).isSome then fs
      else fsWrite fs destPdf ((fsGet fs sourcePdf).getD (FileContent.binary ""))
    let thumbName := stemOf sourcePdf ++ "-thumb.png"
    let thumbPath := joinPath outputDir (pathOfString thumbName)
    let st :=
      if (fsGet fs thumbPath).isSome then (fs, some thumbName)
      else
        match tools.thumbnail sourcePdf with
        | some data => (fsWrite fs thumbPath (FileContent.binary data), some thumbName)
        | none => (fs, none)
    Except.ok (st.1, "slide-embed:" ++ slideFile ++ ":" ++ (st.2.getD "placeholder"))
  else Except.error (Failure.exitOne, fs)

/-- The filesystem effects of `process_notebook` that precede the slide
check: the data zip of lines 362-379, the output-directory creation of
line 383 and the referenced-file copies of line 386. -/
def preSlideFS (tools : Tools) (outputDir : PurePath) (nbPath : PurePath)
    (nb : NotebookDoc) (ws : WorkshopMeta) (fs : FS) : FS :=
  let nbDir := parentDir nbPath
  let zipName := stemOf nbPath ++ "-data.zip"
  let fs := if !ws.dataFiles.isEmpty then
      fsWrite fs (joinPath outputDir (pathOfString zipName))
        (FileContent.zipArchive
          (createDataZip (fs.files.map (fun e => e.1)) ws.dataFiles nbDir).entries)
    else fs
  let fs := mkdirFs fs outputDir
  copyRefs tools fs nbDir outputDir (joinedMarkdownSource nb.cells)

/-- The tail of `process_notebook` (publish.py lines 418-440): write the
exercise and answers notebooks and build the item record. -/
def finishNotebook (cfg : Config) (outputDir : PurePath) (nbPath : PurePath)
    (nb : NotebookDoc) (ws : WorkshopMeta) (slides : Option String) (fs : FS) :
    FS × Option ItemInfo :=
  let baseName := stemOf nbPath
  let nbDir := parentDir nbPath
  let completeMeta := setKernelspec nb.meta
  let hasData := !ws.dataFiles.isEmpty
  let zipName := baseName ++ "-data.zip"
  let installPkgs := ws.install.getD "pandas natural_pdf tqdm"
  let setupCell := createSetupCell zipName cfg installPkgs ws.links
  let variants := processVariants nb.cells hasData setupCell
    (slides.map slideLinkCell)
  let fs := fsWrite fs (joinPath outputDir (pathOfString (baseName ++ ".ipynb")))
    (FileContent.notebookOut completeMeta variants.exercise)
  let fs := fsWrite fs
    (joinPath outputDir (pathOfString (baseName ++ "-ANSWERS.ipynb")))
    (FileContent.notebookOut completeMeta variants.complete)
  (fs, some
    { name := baseName,
      title := ws.title.getD baseName,
      description := ws.description.getD "",
      isMarkdown := false,
      dataFile := if hasData then some zipName else none,
      sectionName := lastComp nbDir,
      sectionFolder := "",
      order := ws.order,
      links := ws.links,
      slides := slides,
      sectionSlides := none })

/-- `process_notebook` (publish.py lines 317-440).  Returns the updated
filesystem and the item record, `none` when the notebook has no workshop
metadata (skip with a warning).  A notebook whose JSON cannot be parsed
raises through `json.load` (no surrounding handler): an uncaught exception.
The data zip (line 379) and the referenced-file copies (line 386) happen
before the slide check, so they survive an abort, as in the source; the
output notebooks are written after it (lines 419-426). -/
def processNotebookRun (cfg : Config) (tools : Tools) (outputDir : PurePath)
    (sectionSlides : Option String) (nbPath : PurePath) (fs : FS) :
    Except (Failure × FS) (FS × Option ItemInfo) :=
  match fsGet fs nbPath with
  | some (FileContent.notebookJson (some nb)) =>
    match nb.workshop with
    | none => Except.ok (fs, none)
    | some ws =>
      let slides := effSlides ws.slides sectionSlides
      let nbDir := parentDir nbPath
      let fs := preSlideFS tools outputDir nbPath nb ws fs
      match slides with
      | some slideFile =>
        let cand1 := joinPath nbDir (pathOfString slideFile)
        let sourcePdf := if (fsGet fs cand1).isSome then cand1
          else pathOfString slideFile
        if (fsGet fs sourcePdf).isSome then
          let destPdf := joinPath outputDir (pathOfString slideFile)
          let fs := if (fsGet fs destPdf).isSome then fs
            else fsWrite fs destPdf ((fsGet fs sourcePdf).getD (FileContent.binary ""))
          Except.ok (finishNotebook cfg outputDir nbPath nb ws slides fs)
        else Except.error (Failure.exitOne, fs)
      | none => Except.ok (finishNotebook cfg outputDir nbPath nb ws slides fs)
  | some (FileContent.notebookJson none) => Except.error (Failure.uncaught, fs)
  | _ => Except.error (Failure.uncaught, fs)

/-- `process_markdown` (publish.py lines 652-732).  Documents without
frontmatter are skipped with a warning (`extract_markdown_frontmatter`
swallows YAML errors).  The referenced-file copies (line 671) and data zip
(line 676) happen before the slide embed, which may `sys.exit(1)`; the HTML
output is written after it. -/
def processMarkdownRun (_cfg : Config) (tools : Tools) (outputDir : PurePath)
    (sectionSlides : Option String) (mdPath : PurePath) (fs : FS) :
    Except (Failure × FS) (FS × Option ItemInfo) :=
  match fsGet fs mdPath with
  | some (FileContent.markdownText front body) =>
    match front with
    | none => Except.ok (fs, none)
    | some fm =>
      let slides := effSlides fm.slides sectionSlides
      let baseName := stemOf mdPath
      let mdDir := parentDir mdPath
      let title := fm.title.getD baseName
      let fs := copyRefs tools fs mdDir outputDir body
      let hasData := !fm.dataFiles.isEmpty
      let zipName := baseName ++ "-data.zip"
      let fs := if hasData then
          fsWrite fs (joinPath outputDir (pathOfString zipName))
            (FileContent.zipArchive
              (createDataZip (fs.files.map (fun e => e.1)) fm.dataFiles mdDir).entries)
        else fs
      let full₀ := "# " ++ title ++ "\n\n"
      let toc := generateToc body (!fm.links.isEmpty)
      let full₁ := if toc ≠ "" then full₀ ++ toc ++ "\n" else full₀
      let full₂ := if hasData then
          full₁ ++ "<div class=\"download-box\">\n<strong>Download files:</strong> <a href=\"./" ++
            zipName ++ "\">📦 " ++ zipName ++ "</a>\n</div>\n\n"
        else full₁
      let withSlides : Except (Failure × FS) (FS × String) :=
        match slides with
        | some sl => (generateSlideEmbedRun tools sl mdDir outputDir fs).map
            (fun r => (r.1, full₂ ++ r.2 ++ "\n\n"))
        | none => Except.ok (fs, full₂)
      match withSlides with
      | Except.error e => Except.error e
      | Except.ok (fs, full₃) =>
        let full₄ := if !fm.links.isEmpty then
            full₃ ++ "## Useful Links\n\n" ++
              String.intercalate "" (fm.links.map (fun l =>
                let nm := l.name.getD "Link"
                let url := l.url.getD "#"
                let d := l.desc.getD ""
                if d ≠ "" then "- [" ++ nm ++ "](" ++ url ++ ") - " ++ d ++ "\n"
                else "- [" ++ nm ++ "](" ++ url ++ ")\n")) ++ "\n"
          else full₃
        let full := full₄ ++ body
        let htmlBody := if tools.mdLib then tools.renderMarkdown full
          else "<pre>" ++ full ++ "</pre>"
        let fs := fsWrite fs (joinPath outputDir (pathOfString (baseName ++ ".html")))
          (FileContent.htmlDoc title htmlBody)
        Except.ok (fs, some
          { name := baseName, title := title,
            description := fm.description.getD "", isMarkdown := true,
            dataFile := if hasData then some zipName else none,
            sectionName := lastComp mdDir, sectionFolder := "",
            order := fm.order, links := fm.links, slides := slides,
            sectionSlides := none })
  | _ => Except.error (Failure.uncaught, fs)

/-- The ordering-relevant projection of an item record, as consumed by the
`create_index` grouping and sorting model. -/
def toItem (it : ItemInfo) : Item :=
  { name := it.name, sectionName := it.sectionName, order := it.order }

/-- The view of a configured section that `create_index` takes. -/
def toSectionCfg : RunSection → SectionCfg
  | RunSection.strS s => SectionCfg.strCfg s
  | RunSection.dictS folder title _ => SectionCfg.dictCfg title folder

/-- The `section_configs` lookup of publish.py lines 744-747 and 776: keyed
by `get('title', get('folder'))`, later entries overwriting earlier ones. -/
def sectionCfgFor (secs : List RunSection) (stitle : String) : Option RunSection :=
  secs.reverse.find? (fun s =>
    match s with
    | RunSection.dictS folder title _ => (title.orElse (fun _ => folder)) == some stitle
    | RunSection.strS _ => false)

/-- The sort key of publish.py lines 784-788 on full item records (equal to
`itemKey` on the `toItem` projection). -/
def itemInfoKey (it : ItemInfo) : Nat × Int × String :=
  match it.order with
  | some o => (0, o, "")
  | none => (1, 0, it.name)

def itemInfoLe (a b : ItemInfo) : Prop :=
  keyLe (itemInfoKey a) (itemInfoKey b) = true

instance : DecidableRel itemInfoLe := fun a b =>
  inferInstanceAs (Decidable (keyLe (itemInfoKey a) (itemInfoKey b) = true))

def itemInfoNameDesc (a b : ItemInfo) : Prop :=
  strLe b.name a.name = true

instance : DecidableRel itemInfoNameDesc := fun a b =>
  inferInstanceAs (Decidable (strLe b.name a.name = true))

/-- publish.py lines 783-795 on full item records (`sortItems` on the
projection). -/
def sortItemInfos (items : List ItemInfo) : List ItemInfo :=
  let sorted := List.insertionSort itemInfoLe items
  sorted.filter (fun it => it.order.isSome) ++
    List.insertionSort itemInfoNameDesc (sorted.filter (fun it => it.order.isNone))

/-- One item's block of the index listing (publish.py lines 797-851),
abbreviated to its data: the title link target, the worksheet/completed/data
file references, the slides mention (emitted when the item has slides and no
`section_slides` key, line 833) and the link names. -/
def indexItemBlock (cfg : Config) (it : ItemInfo) : String :=
  let colab := "https://colab.research.google.com/github/" ++ cfg.githubRepo ++
    "/blob/" ++ cfg.githubBranch ++ "/" ++ cfg.outputDirName ++ "/" ++
    it.name ++ ".ipynb"
  let header := if it.isMarkdown then
      "### [" ++ it.title ++ "](./" ++ it.name ++ ".html)\n"
    else "### [" ++ it.title ++ "](" ++ colab ++ ")\n"
  let desc := if it.description ≠ "" then it.description ++ "\n" else ""
  let files := if it.isMarkdown then
      (match it.dataFile with | some d => "data:" ++ d ++ "\n" | none => "")
    else
      "worksheet:" ++ it.name ++ ".ipynb|completed:" ++ it.name ++ "-ANSWERS.ipynb" ++
        (match it.dataFile with | some d => "|data:" ++ d | none => "") ++ "\n"
  let slides := match it.slides, it.sectionSlides with
    | some s, none => "slides:" ++ s ++ "\n"
    | _, _ => ""
  let links := if !it.links.isEmpty then
      "links:" ++ String.intercalate "," (it.links.map (fun l => l.name.getD "Link")) ++
        "\n"
    else ""
  header ++ desc ++ files ++ slides ++ links

/-- The section loop of `create_index` (publish.py lines 771-851): emit the
group heading, embed the configured section slides if any (which may
`sys.exit(1)` through `generate_slide_embed`), then the per-item blocks in
sorted order. -/
def indexSectionsGo (cfg : Config) (tools : Tools) (outputDir : PurePath)
    (items : List ItemInfo) :
    List String → FS → String → Except (Failure × FS) (FS × String)
  | [], fs, acc => Except.ok (fs, acc)
  | sec :: rest, fs, acc =>
    let secItems := items.filter (fun it => it.sectionName == sec)
    let acc := acc ++ "\n## " ++ sec ++ "\n"
    let step : Except (Failure × FS) (FS × String) :=
      match sectionCfgFor cfg.sections sec with
      | some (RunSection.dictS _ _ (some sl)) =>
        let secDir := match secItems with
          | it :: _ => pathOfString it.sectionFolder
          | [] => pathOfString "."
        (generateSlideEmbedRun tools sl (parentDir secDir) outputDir fs).map
          (fun r => (r.1, acc ++ "\n" ++ r.2 ++ "\n"))
      | _ => Except.ok (fs, acc)
    match step with
    | Except.error e => Except.error e
    | Except.ok (fs, acc) =>
      let sorted := sortItemInfos secItems
      let acc := acc ++ String.intercalate "" (sorted.map (indexItemBlock cfg))
      indexSectionsGo cfg tools outputDir items rest fs acc

/-- `create_index` (publish.py lines 734-874): group and order the sections,
emit the listing, substitute into the (default) template and write
`index.html`. -/
def createIndexRun (cfg : Config) (tools : Tools) (outputDir : PurePath)
    (items : List ItemInfo) (fs : FS) : Except (Failure × FS) FS :=
  let order := sectionOrder (cfg.sections.map toSectionCfg) (items.map toItem)
  match indexSectionsGo cfg tools outputDir items order fs "" with
  | Except.error e => Except.error e
  | Except.ok (fs, nbsMd) =>
    let content := "# " ++ cfg.title ++ "\n\n" ++ cfg.description ++ "\n\n" ++
      nbsMd ++ "\n"
    let htmlBody := if tools.mdLib then tools.renderMarkdown content
      else "<pre>" ++ content ++ "</pre>"
    Except.ok (fsWrite fs (joinPath outputDir (pathOfString "index.html"))
      (FileContent.htmlDoc cfg.title htmlBody))

/-- The decoration of a processed record in `main` (publish.py lines
920-926 and 933-939): override the section name with the configured title,
record the folder, and set `section_slides` when the section has slides the
item did not take over (which cannot happen, as the processors already fold
section slides into the item's `slides`). -/
def decorateInfo (title folder : String) (sectionSlides : Option String)
    (info : ItemInfo) : ItemInfo :=
  let ss := if sectionSlides.isSome && info.slides.isNone then sectionSlides
    else info.sectionSlides
  { info with sectionName := title, sectionFolder := folder, sectionSlides := ss }

/-- Process a list of document paths with one of the two processors,
collecting the decorated records of the non-skipped documents. -/
def processFiles (proc : PurePath → FS → Except (Failure × FS) (FS × Option ItemInfo))
    (deco : ItemInfo → ItemInfo) :
    List PurePath → FS → List ItemInfo → Except (Failure × FS) (FS × List ItemInfo)
  | [], fs, acc => Except.ok (fs, acc)
  | p :: rest, fs, acc =>
    match proc p fs with
    | Except.error e => Except.error e
    | Except.ok (fs', none) => processFiles proc deco rest fs' acc
    | Except.ok (fs', some info) => processFiles proc deco rest fs' (acc ++ [deco info])

/-- The section loop of `main` (publish.py lines 897-940): resolve folder,
title and slides of each configured section, skip sections whose folder is
falsy or does not exist (a warning), then process the notebooks (checkpoint
paths skipped) and the markdown files of the folder. -/
def runSectionsGo (cfg : Config) (tools : Tools) (outputDir : PurePath) :
    List RunSection → FS → List ItemInfo → Except (Failure × FS) (FS × List ItemInfo)
  | [], fs, acc => Except.ok (fs, acc)
  | sec :: rest, fs, acc =>
    let fts : Option String × String × Option String :=
      match sec with
      | RunSection.dictS f t sl => (f, (t.orElse (fun _ => f)).getD "", sl)
      | RunSection.strS s => (some s, s, none)
    match fts with
    | (none, _, _) => runSectionsGo cfg tools outputDir rest fs acc
    | (some folder, title, sectionSlides) =>
      if folder = "" then runSectionsGo cfg tools outputDir rest fs acc
      else if fsExists fs (pathOfString folder) then
        let nbs := (dirGlob fs (pathOfString folder) "*.ipynb").filter
          (fun p => !containsCheckpoint p)
        match processFiles (processNotebookRun cfg tools outputDir sectionSlides)
            (decorateInfo title folder sectionSlides) nbs fs acc with
        | Except.error e => Except.error e
        | Except.ok (fs', acc') =>
          let mds := dirGlob fs' (pathOfString folder) "*.md"
          match processFiles (processMarkdownRun cfg tools outputDir sectionSlides)
              (decorateInfo title folder sectionSlides) mds fs' acc' with
          | Except.error e => Except.error e
          | Except.ok (fs'', acc'') => runSectionsGo cfg tools outputDir rest fs'' acc''
      else runSectionsGo cfg tools outputDir rest fs acc

/-- The body of `main` after the output directory has been recreated
(publish.py lines 889-947): return early (exit 0, a warning) when no
sections are configured, process the sections, and build the index when
anything was processed. -/
def mainAfterWipe (cfg : Config) (tools : Tools) (od : PurePath) (fs : FS) :
    Outcome × FS :=
  if cfg.sections.isEmpty then (Outcome.exitZero, fs)
  else
    match runSectionsGo cfg tools od cfg.sections fs [] with
    | Except.error (Failure.exitOne, fs') => (Outcome.exitOneCode, fs')
    | Except.error (Failure.uncaught, fs') => (Outcome.exnExit, fs')
    | Except.ok (fs', items) =>
      if items.isEmpty then (Outcome.exitZero, fs')
      else
        match createIndexRun cfg tools od items fs' with
        | Except.error (Failure.exitOne, fs'') => (Outcome.exitOneCode, fs'')
        | Except.error (Failure.uncaught, fs'') => (Outcome.exnExit, fs'')
        | Except.ok fs'' => (Outcome.exitZero, fs'')

/-- The body of `main` after `load_config` (publish.py lines 879-947):
clear and recreate the output directory, then continue on the wiped
filesystem. -/
def mainBody (cfg : Config) (tools : Tools) (fs : FS) : Outcome × FS :=
  let od := pathOfString cfg.outputDirName
  let fs := if fsExists fs od then rmTree fs od else fs
  let fs := mkdirFs fs od
  mainAfterWipe cfg tools od fs

/-- One whole run (publish.py lines 876-950): an unreadable configuration
file raises out of `yaml.safe_load` (an uncaught exception, before anything
is written); otherwise the run proceeds on the parsed or default
configuration.  The result is the exit behaviour and the final filesystem. -/
def runMain (w : World) : Outcome × FS :=
  match w.configSrc with
  | ConfigSrc.invalid => (Outcome.exnExit, w.fs)
  | ConfigSrc.missing => mainBody defaultConfig w.tools w.fs
  | ConfigSrc.parsed c => mainBody c w.tools w.fs

/-! ### Framing lemmas: the pre-slide effects never touch paths outside the
output directory -/

theorem lookupFile_update (l : List (PurePath × FileContent)) (p q : PurePath)
    (c : FileContent) (h : q ≠ p) :
    lookupFile (l.map (fun e => if e.1 == p then (p, c) else e)) q =
      lookupFile l q := by
  induction l with
  | nil => rfl
  | cons e l ih =>
    by_cases hp : (e.1 == p) = true
    · have hep : e.1 = p := by simpa using hp
      have hpq : (p == q) = false := by simpa using fun hh => h hh.symm
      have heq : (e.1 == q) = false := by rw [hep]; exact hpq
      have hhead : (if (e.1 == p) = true then (p, c) else e) = (p, c) := if_pos hp
      simp only [List.map_cons, hhead, lookupFile, hpq, heq, Bool.false_eq_true,
        if_false]
      exact ih
    · have hhead : (if (e.1 == p) = true then (p, c) else e) = e := if_neg hp
      by_cases hq : (e.1 == q) = true
      · simp only [List.map_cons, hhead, lookupFile, hq, if_pos]
      · simp only [List.map_cons, hhead, lookupFile, hq, Bool.false_eq_true, if_false]
        exact ih

theorem lookupFile_append (l : List (PurePath × FileContent)) (p q : PurePath)
    (c : FileContent) (h : q ≠ p) :
    lookupFile (l ++ [(p, c)]) q = lookupFile l q := by
  induction l with
  | nil =>
    have hpq : (p == q) = false := by simpa using fun hh => h hh.symm
    simp [lookupFile, hpq]
  | cons e l ih =>
    by_cases hq : (e.1 == q) = true
    · simp [List.cons_append, lookupFile, hq]
    · simp only [List.cons_append, lookupFile, hq, Bool.false_eq_true, if_false]
      exact ih

theorem fsGet_fsWrite_ne (fs : FS) (p : PurePath) (c : FileContent) (q : PurePath)
    (h : q ≠ p) : fsGet (fsWrite fs p c) q = fsGet fs q := by
  unfold fsWrite fsGet
  by_cases ha : fs.files.any (fun e => e.1 == p) = true
  · rw [if_pos ha]
    exact lookupFile_update fs.files p q c h
  · rw [if_neg ha]
    simp only
    exact lookupFile_append fs.files p q c h

theorem fsGet_mkdirFs (fs : FS) (d q : PurePath) :
    fsGet (mkdirFs fs d) q = fsGet fs q := by
  unfold mkdirFs
  by_cases hd : d ∈ fs.dirs
  · rw [if_pos hd]
  · rw [if_neg hd]; rfl

theorem isPrefixOf_append_self (l r : List String) : l.isPrefixOf (l ++ r) = true := by
  induction l with
  | nil => cases r with | nil => rfl | cons b bs => rfl
  | cons a l ih => simp [List.isPrefixOf, ih]

theorem underDir_join_rel (od : PurePath) (l : List String) :
    underDir od ⟨od.absolute, od.parts ++ l⟩ = true := by
  unfold underDir
  simp [isPrefixOf_append_self]

theorem join_od_ne (od q : PurePath) (x : String) (habs : q.absolute = false)
    (hund : underDir od q = false) : joinPath od (pathOfString x) ≠ q := by
  unfold joinPath
  by_cases hx : (pathOfString x).absolute = true
  · rw [if_pos hx]
    intro e
    rw [e, habs] at hx
    exact Bool.false_ne_true hx
  · rw [if_neg hx]
    intro e
    have := underDir_join_rel od (pathOfString x).parts
    rw [e, hund] at this
    exact Bool.false_ne_true this

theorem fsGet_copyRefs_outside (tools : Tools) (fs : FS) (docDir od : PurePath)
    (content : String) (q : PurePath) (habs : q.absolute = false)
    (hund : underDir od q = false) :
    fsGet (copyRefs tools fs docDir od content) q = fsGet fs q := by
  unfold copyRefs
  generalize tools.refExtract content = refs
  induction refs generalizing fs with
  | nil => rfl
  | cons r rest ih =>
    rw [List.foldl_cons]
    refine Eq.trans (ih _) ?_
    simp only
    cases fsGet fs (joinPath docDir (pathOfString r)) with
    | none => rfl
    | some data =>
      simp only
      by_cases hd : (fsGet fs (joinPath od (pathOfString r))).isSome = true
      · rw [if_pos hd]
      · rw [if_neg hd]
        exact fsGet_fsWrite_ne fs _ data q (fun e => join_od_ne od q r habs hund e.symm)

theorem fsGet_preSlideFS_outside (tools : Tools) (od nbPath : PurePath)
    (nb : NotebookDoc) (ws : WorkshopMeta) (fs : FS) (q : PurePath)
    (habs : q.absolute = false) (hund : underDir od q = false) :
    fsGet (preSlideFS tools od nbPath nb ws fs) q = fsGet fs q := by
  unfold preSlideFS
  simp only
  rw [fsGet_copyRefs_outside tools _ _ od _ q habs hund, fsGet_mkdirFs]
  by_cases hd : (!ws.dataFiles.isEmpty) = true
  · rw [if_pos hd]
    exact fsGet_fsWrite_ne fs _ _ q
      (fun e => join_od_ne od q (stemOf nbPath ++ "-data.zip") habs hund e.symm)
  · rw [if_neg hd]

/-- `generate_slide_embed` aborts with `sys.exit(1)` exactly when the slide
file is locatable at neither of its two candidate locations (publish.py
lines 596-604). -/
theorem generateSlideEmbed_error_iff (tools : Tools) (sl : String)
    (docDir outputDir : PurePath) (g : FS) :
    (∃ ffs, generateSlideEmbedRun tools sl docDir outputDir g =
        Except.error (Failure.exitOne, ffs)) ↔
      slideLocatable g docDir sl = false := by
  unfold generateSlideEmbedRun slideLocatable
  dsimp only
  by_cases hc1 : (fsGet g (joinPath docDir (pathOfString sl))).isSome = true
  · rw [if_pos hc1, if_pos hc1]
    simp [hc1]
  · rw [if_neg hc1]
    by_cases hc2 : (fsGet g (pathOfString sl)).isSome = true
    · rw [if_pos hc2]
      simp [hc1, hc2]
    · rw [if_neg hc2]
      simp only [Bool.or_eq_false_iff]
      constructor
      · intro _
        exact ⟨by simpa using hc1, by simpa using hc2⟩
      · intro _
        exact ⟨g, rfl⟩

/-- A world declares a slide file somewhere: in a configured section, in a
notebook's workshop metadata, or in a markdown document's frontmatter (the
claim's notion of "a declared slide file"). -/
def declaresSlides (w : World) : Bool :=
  (cfgOf w.configSrc).sections.any (fun s =>
    match s with
    | RunSection.dictS _ _ (some _) => true
    | _ => false) ||
  w.fs.files.any (fun e =>
    match e.2 with
    | FileContent.notebookJson (some nb) =>
      (match nb.workshop with
       | some ws => ws.slides.isSome
       | none => false)
    | FileContent.markdownText (some fm) _ => fm.slides.isSome
    | _ => false)

/-- C8 counterexample: in a world that declares no slide file at all, a
source notebook whose JSON does not parse makes the run die with an uncaught
exception out of `json.load` (publish.py line 320 has no handler around it),
which is a nonzero exit status; so the process can exit nonzero although no
declared slide file is missing, refuting the "only if" direction of the
claim. -/
theorem nonzero_exit_without_missing_slide :
    (runMain
        { configSrc := ConfigSrc.parsed
            { githubRepo := "r", githubBranch := "b", title := "t",
              description := "", outputDirName := "docs",
              sections := [RunSection.dictS (some "sec") (some "Sec") none] },
          fs := ⟨[(⟨false, ["sec", "bad.ipynb"]⟩, FileContent.notebookJson none)],
                 [⟨false, ["sec"]⟩, ⟨false, ["docs"]⟩]⟩,
          tools := ⟨true, fun s => s, fun _ => none, fun _ => []⟩ }).1 =
      Outcome.exnExit ∧
    declaresSlides
        { configSrc := ConfigSrc.parsed
            { githubRepo := "r", githubBranch := "b", title := "t",
              description := "", outputDirName := "docs",
              sections := [RunSection.dictS (some "sec") (some "Sec") none] },
          fs := ⟨[(⟨false, ["sec", "bad.ipynb"]⟩, FileContent.notebookJson none)],
                 [⟨false, ["sec"]⟩, ⟨false, ["docs"]⟩]⟩,
          tools := ⟨true, fun s => s, fun _ => none, fun _ => []⟩ } = false := by
  constructor
  · decide
  · decide

/-- C8 as amended: the only explicit abort (`sys.exit(1)`) paths are the
slide checks.  For a notebook that parses and carries workshop metadata,
`process_notebook` aborts with exit 1 exactly when the effective slide
reference is locatable at neither of its two candidate locations, and it
never raises; `generate_slide_embed` behaves the same way.  (The candidate
paths are required to be relative paths outside the output directory, so the
data-zip and referenced-file writes that precede the check cannot create
them.)  Documents without workshop metadata or frontmatter are skipped,
unmatched glob patterns only warn (see `datazip_dedup_and_unmatched_warn`),
and a thumbnail failure or missing markdown package only degrades the
output; but unparseable input crashes the run with an unhandled exception,
so the whole process can also exit nonzero without any missing slide (see
the counterexample). -/
theorem process_notebook_abort_iff_slide_unlocatable
    (cfg : Config) (tools : Tools) (outputDir : PurePath)
    (sectionSlides : Option String) (nbPath : PurePath) (fs : FS)
    (nb : NotebookDoc) (ws : WorkshopMeta)
    (hread : fsGet fs nbPath = some (FileContent.notebookJson (some nb)))
    (hws : nb.workshop = some ws)
    (hcand : ∀ s, effSlides ws.slides sectionSlides = some s →
      ((joinPath (parentDir nbPath) (pathOfString s)).absolute = false ∧
        underDir outputDir (joinPath (parentDir nbPath) (pathOfString s)) = false) ∧
      ((pathOfString s).absolute = false ∧
        underDir outputDir (pathOfString s) = false)) :
    ((∃ ffs, processNotebookRun cfg tools outputDir sectionSlides nbPath fs =
        Except.error (Failure.exitOne, ffs)) ↔
      (∃ s, effSlides ws.slides sectionSlides = some s ∧
        slideLocatable fs (parentDir nbPath) s = false)) ∧
    (∀ ffs, processNotebookRun cfg tools outputDir sectionSlides nbPath fs ≠
      Except.error (Failure.uncaught, ffs)) ∧
    (∀ (sl : String) (docDir : PurePath) (g : FS),
      (∃ ffs, generateSlideEmbedRun tools sl docDir outputDir g =
          Except.error (Failure.exitOne, ffs)) ↔
        slideLocatable g docDir sl = false) := by
  have hrun : processNotebookRun cfg tools outputDir sectionSlides nbPath fs =
      (match effSlides ws.slides sectionSlides with
       | some slideFile =>
         let nbDir := parentDir nbPath
         let fs' := preSlideFS tools outputDir nbPath nb ws fs
         let cand1 := joinPath nbDir (pathOfString slideFile)
         let sourcePdf := if (fsGet fs' cand1).isSome then cand1
           else pathOfString slideFile
         if (fsGet fs' sourcePdf).isSome then
           let destPdf := joinPath outputDir (pathOfString slideFile)
           let fs'' := if (fsGet fs' destPdf).isSome then fs'
             else fsWrite fs' destPdf ((fsGet fs' sourcePdf).getD (FileContent.binary ""))
           Except.ok (finishNotebook cfg outputDir nbPath nb ws
             (effSlides ws.slides sectionSlides) fs'')
         else Except.error (Failure.exitOne, fs')
       | none =>
         Except.ok (finishNotebook cfg outputDir nbPath nb ws
           (effSlides ws.slides sectionSlides)
           (preSlideFS tools outputDir nbPath nb ws fs))) := by
    unfold processNotebookRun
    rw [hread]
    dsimp only
    rw [hws]
  refine ⟨?_, ?_, fun sl docDir g => generateSlideEmbed_error_iff tools sl docDir outputDir g⟩
  · rw [hrun]
    cases heff : effSlides ws.slides sectionSlides with
    | none =>
      dsimp only
      constructor
      · rintro ⟨ffs, he⟩
        exact absurd he (by simp)
      · rintro ⟨s, hs, _⟩
        cases hs
    | some s =>
      obtain ⟨⟨habs1, hund1⟩, habs2, hund2⟩ := hcand s heff
      have hframe1 : fsGet (preSlideFS tools outputDir nbPath nb ws fs)
          (joinPath (parentDir nbPath) (pathOfString s)) =
          fsGet fs (joinPath (parentDir nbPath) (pathOfString s)) :=
        fsGet_preSlideFS_outside tools outputDir nbPath nb ws fs _ habs1 hund1
      have hframe2 : fsGet (preSlideFS tools outputDir nbPath nb ws fs)
          (pathOfString s) = fsGet fs (pathOfString s) :=
        fsGet_preSlideFS_outside tools outputDir nbPath nb ws fs _ habs2 hund2
      dsimp only
      rw [hframe1]
      by_cases hc1 : (fsGet fs (joinPath (parentDir nbPath) (pathOfString s))).isSome = true
      · rw [if_pos hc1, hframe1, if_pos hc1]
        constructor
        · rintro ⟨ffs, he⟩
          exact absurd he (by simp)
        · rintro ⟨s', hs', hloc⟩
          obtain rfl : s = s' := by injection hs'
          unfold slideLocatable at hloc
          rw [hc1] at hloc
          simp at hloc
      · rw [if_neg hc1, hframe2]
        by_cases hc2 : (fsGet fs (pathOfString s)).isSome = true
        · rw [if_pos hc2]
          constructor
          · rintro ⟨ffs, he⟩
            exact absurd he (by simp)
          · rintro ⟨s', hs', hloc⟩
            obtain rfl : s = s' := by injection hs'
            unfold slideLocatable at hloc
            rw [hc2] at hloc
            simp at hloc
        · rw [if_neg hc2]
          constructor
          · intro _
            refine ⟨s, rfl, ?_⟩
            rw [slideLocatable]
            simp only [Bool.or_eq_false_iff]
            exact ⟨by simpa using hc1, by simpa using hc2⟩
          · intro _
            exact ⟨_, rfl⟩
  · intro ffs
    rw [hrun]
    cases heff : effSlides ws.slides sectionSlides with
    | none => dsimp only; simp
    | some s =>
      dsimp only
      by_cases hc : (fsGet (preSlideFS tools outputDir nbPath nb ws fs)
          (if (fsGet (preSlideFS tools outputDir nbPath nb ws fs)
              (joinPath (parentDir nbPath) (pathOfString s))).isSome then
            joinPath (parentDir nbPath) (pathOfString s)
          else pathOfString s)).isSome = true
      · rw [if_pos hc]; simp
      · rw [if_neg hc]; simp

/-- Witness for the amended C8: a parsed notebook declaring the slide file
"deck.pdf", present at neither candidate location, makes `process_notebook`
abort through `sys.exit(1)`. -/
theorem process_notebook_abort_iff_slide_unlocatable_witness :
    ∃ ffs, processNotebookRun defaultConfig
        ⟨true, fun s => s, fun _ => none, fun _ => []⟩
        ⟨false, ["docs"]⟩ none ⟨false, ["sec", "nb.ipynb"]⟩
        ⟨[(⟨false, ["sec", "nb.ipynb"]⟩, FileContent.notebookJson (some
            { meta := ⟨none, []⟩,
              workshop := some
                { title := none, description := none, slides := some "deck.pdf",
                  dataFiles := [], install := none, links := [], order := none },
              cells := [] }))], [⟨false, ["sec"]⟩, ⟨false, ["docs"]⟩]⟩ =
      Except.error (Failure.exitOne, ffs) :=
  (process_notebook_abort_iff_slide_unlocatable defaultConfig
      ⟨true, fun s => s, fun _ => none, fun _ => []⟩
      ⟨false, ["docs"]⟩ none ⟨false, ["sec", "nb.ipynb"]⟩
      ⟨[(⟨false, ["sec", "nb.ipynb"]⟩, FileContent.notebookJson (some
          { meta := ⟨none, []⟩,
            workshop := some
              { title := none, description := none, slides := some "deck.pdf",
                dataFiles := [], install := none, links := [], order := none },
            cells := [] }))], [⟨false, ["sec"]⟩, ⟨false, ["docs"]⟩]⟩
      { meta := ⟨none, []⟩,
        workshop := some
          { title := none, description := none, slides := some "deck.pdf",
            dataFiles := [], install := none, links := [], order := none },
        cells := [] }
      { title := none, description := none, slides := some "deck.pdf",
        dataFiles := [], install := none, links := [], order := none }
      (by decide) (by decide)
      (by intro s hs; injection hs with h; subst h; decide)).1.mpr
    ⟨"deck.pdf", rfl, by decide⟩

/-- C9: two runs of the tool over the same input documents, configuration
and external tool behaviour produce identical outcomes and identical final
file trees, whatever the output directory held beforehand: `main` removes
the whole output directory tree before writing (publish.py lines 882-887),
so the filesystems coincide after the wipe and the rest of the run is a pure
function of that state.  The runs are required to find the output directory
present, as the second of two consecutive runs always does. -/
theorem main_two_run_determinism (w₁ w₂ : World)
    (hcfg : w₁.configSrc = w₂.configSrc)
    (hninv : w₁.configSrc ≠ ConfigSrc.invalid)
    (htools : w₁.tools = w₂.tools)
    (hex₁ : fsExists w₁.fs (pathOfString (cfgOf w₁.configSrc).outputDirName) = true)
    (hex₂ : fsExists w₂.fs (pathOfString (cfgOf w₁.configSrc).outputDirName) = true)
    (hfs : rmTree w₁.fs (pathOfString (cfgOf w₁.configSrc).outputDirName) =
      rmTree w₂.fs (pathOfString (cfgOf w₁.configSrc).outputDirName)) :
    runMain w₁ = runMain w₂ := by
  obtain ⟨c₁, f₁, t₁⟩ := w₁
  obtain ⟨c₂, f₂, t₂⟩ := w₂
  simp only at hcfg htools hex₁ hex₂ hfs hninv
  subst hcfg
  subst htools
  cases c₁ with
  | invalid => exact absurd rfl hninv
  | missing =>
    simp only [runMain, mainBody, cfgOf] at hex₁ hex₂ hfs ⊢
    rw [if_pos hex₁, if_pos hex₂, hfs]
  | parsed c =>
    simp only [runMain, mainBody, cfgOf] at hex₁ hex₂ hfs ⊢
    rw [if_pos hex₁, if_pos hex₂, hfs]

/-- Witness for C9: a second run starting with a stale leftover file in the
output directory produces exactly what a run without it produces. -/
theorem main_two_run_determinism_witness :
    runMain
        { configSrc := ConfigSrc.parsed defaultConfig,
          fs := ⟨[(⟨false, ["docs", "stale.html"]⟩, FileContent.binary "old")],
                 [⟨false, ["docs"]⟩]⟩,
          tools := ⟨true, fun s => s, fun _ => none, fun _ => []⟩ } =
      runMain
        { configSrc := ConfigSrc.parsed defaultConfig,
          fs := ⟨[], [⟨false, ["docs"]⟩]⟩,
          tools := ⟨true, fun s => s, fun _ => none, fun _ => []⟩ } :=
  main_two_run_determinism _ _ rfl (by decide) rfl (by decide) (by decide) (by decide)

end Publish
